import Mathlib

/-
Verification of the undo/redo command subsystem of the cognix-editor
repository (src/cognix/qtcore/flows/commands.py) and of the defensive
port lookups of src/cognix/qtcore/ports/item.py.

Shallow embedding conventions:
* The graph model owned by cognixcore (an external collaborator of this
  repository) is modelled from the spec, section 6: a `Flow` holds nodes,
  connections and drawings; `ConnectionInfo` is a value-type descriptor
  identifying a connection by its two endpoint ports, so it is modelled by
  the same type `Conn` as a live connection tuple `(out, inp)`.
* Qt positions are `qreal` coordinates; they are modelled as exact integer
  pairs (`Pt`), since every claim is about algebraic structure of the
  translations, not about rounding.
* Python object mutation is modelled by explicit state passing: each
  command method takes and returns the command record and the flow.
* Exceptions are modelled by an explicit raised flag (`Bool`) or by
  `Except String`; diagnostics written through `InfoMsgs.write_err` and
  `traceback.print_exc` are modelled as a `List String` log.
* Display labels (`setText`, `undo_text_multi`) and the view selection set
  are presentation state outside every claim's observable (node identities,
  connection endpoint pairs, item positions) and are not modelled.
-/

namespace CognixEditor

/-- A 2-D position (Qt QPointF, modelled with exact integer coordinates). -/
structure Pt where
  x : Int
  y : Int
deriving DecidableEq, Repr

def Pt.add (p q : Pt) : Pt := ⟨p.x + q.x, p.y + q.y⟩

def Pt.sub (p q : Pt) : Pt := ⟨p.x - q.x, p.y - q.y⟩

def Pt.zero : Pt := ⟨0, 0⟩

/-- A node port, identified by its owning node id, its index in the node's
input or output list, and whether it is an input. -/
structure Port where
  node : Nat
  idx : Nat
  isInp : Bool
deriving DecidableEq, Repr

/-- A connection (and equally a ConnectionInfo, which the spec describes as a
value-type descriptor identifying a connection by its endpoints): an output
port paired with an input port. -/
structure Conn where
  out : Port
  inp : Port
deriving DecidableEq, Repr

/-- A node: identity, port arities, and the position of its scene item. -/
structure Node where
  id : Nat
  nIns : Nat
  nOuts : Nat
  pos : Pt
deriving DecidableEq, Repr

/-- A drawing object: identity and the position of its scene item. -/
structure Drawing where
  id : Nat
  pos : Pt
deriving DecidableEq, Repr

/-- The graph state observable through the command subsystem's interface to
the graph model and the view: nodes, connections, drawings. -/
structure Flow where
  nodes : List Node
  conns : List Conn
  drawings : List Drawing
deriving DecidableEq, Repr

/-- Modelled from the spec: `connected_output(in) -> Optional[out]`. -/
def Flow.connectedOutput (f : Flow) (i : Port) : Option Port :=
  (f.conns.find? (fun c => c.inp = i)).map (fun c => c.out)

/-- Modelled from the spec: `connected_inputs(out) -> sequence`. -/
def Flow.connectedInputs (f : Flow) (o : Port) : List Port :=
  (f.conns.filter (fun c => c.out = o)).map (fun c => c.inp)

/-- Modelled from the spec: `connection_info((out,in)) -> ConnectionInfo`, a
value descriptor of the two endpoints. -/
def Flow.connectionInfo (f : Flow) (o i : Port) : Conn := ⟨o, i⟩

/-- Modelled from the spec: `add_node(Node)`. -/
def Flow.addNode (f : Flow) (n : Node) : Flow :=
  { f with nodes := f.nodes ++ [n] }

/-- Modelled from the spec: `remove_node(Node)` removes that node. -/
def Flow.removeNode (f : Flow) (n : Node) : Flow :=
  { f with nodes := f.nodes.filter (fun m => m.id ≠ n.id) }

/-- Modelled from the spec: `connect_from_info(ConnectionInfo, silent)`
recreates the described connection (the notification side channel suppressed
by `silent` is not modelled). -/
def Flow.connectFromInfo (f : Flow) (c : Conn) : Flow :=
  { f with conns := f.conns ++ [c] }

/-- Modelled from the spec: `disconnect_from_info(ConnectionInfo, silent)`
removes the described connection. -/
def Flow.disconnectFromInfo (f : Flow) (c : Conn) : Flow :=
  { f with conns := f.conns.filter (fun x => x ≠ c) }

/-- Modelled from the spec: `connect_ports(out, in, silent) -> Connection`. -/
def Flow.connectPorts (f : Flow) (o i : Port) : Conn × Flow :=
  (⟨o, i⟩, f.connectFromInfo ⟨o, i⟩)

/-- Modelled from the spec: `remove_connection` (used by Paste's undo). -/
def Flow.removeConnection (f : Flow) (c : Conn) : Flow :=
  f.disconnectFromInfo c

/-- Modelled from the spec: `add_connection` (used by Paste's redo). -/
def Flow.addConnection (f : Flow) (c : Conn) : Flow :=
  f.connectFromInfo c

/-- View collaborator `add_drawing(drawing, posF)`: the drawing item joins the
scene at the given position. -/
def Flow.addDrawing (f : Flow) (d : Drawing) : Flow :=
  { f with drawings := f.drawings ++ [d] }

/-- View collaborator `remove_drawing` / `remove_component` for drawings. -/
def Flow.removeDrawing (f : Flow) (did : Nat) : Flow :=
  { f with drawings := f.drawings.filter (fun d => d.id ≠ did) }

/-- Reading `drawing.pos()` for a drawing item currently in the scene; the
fallback is returned when the item is absent (unreachable in the claims). -/
def Flow.drawingPos (f : Flow) (did : Nat) (fallback : Pt) : Pt :=
  ((f.drawings.find? (fun d => d.id = did)).map (fun d => d.pos)).getD fallback

/-- The observable state of the example claims: the set of node identities
with their item positions, the set of connection endpoint pairs, and the set
of drawing identities with their item positions. -/
def obs (f : Flow) : Finset (Nat × Pt) × Finset Conn × Finset (Nat × Pt) :=
  ((f.nodes.map (fun n => (n.id, n.pos))).toFinset,
   f.conns.toFinset,
   (f.drawings.map (fun d => (d.id, d.pos))).toFinset)

/-
FlowUndoCommand base contract (commands.py lines 37-94): the activation
flag, the class-level reentrancy guard `_any_cmd_active`, and the guarded
`redo`/`undo` entry points around the subclass hooks `redo_`/`undo_`.
The process state threaded through an entry point is the guard flag, the
graph state (a type parameter), and the diagnostic log written through
`InfoMsgs.write_err`.  An inner logic function returns the new state and a
flag saying whether it raised an exception.
-/

/-- The diagnostic emitted by `FlowUndoCommand.redo` on a reentrant call. -/
def redoErrMsg : String :=
  "FlowUndoCommand.redo() called while another FlowUndoCommand is active, most likely due to a recursive redo. This is not allowed. The editor is now in an undefined state. Save your work and restart the editor. "

/-- The diagnostic emitted by `FlowUndoCommand.undo` on a reentrant call. -/
def undoErrMsg : String :=
  "FlowUndoCommand.undo() called while another FlowUndoCommand is active, most likely due to a recursive undo. This is not allowed. The editor is now in an undefined state. Save your work and restart the editor. "

/-- Process state seen by a command entry point: the shared
`_any_cmd_active` guard, the graph state, and the diagnostic log. -/
structure CmdState (γ : Type) where
  anyCmdActive : Bool
  graph : γ
  errs : List String
deriving DecidableEq

/-- `FlowUndoCommand.redo` (lines 61-74): early return when not activated;
reject with a diagnostic when another command is active; otherwise set the
guard, run `redo_`, and clear the guard.  There is no try/finally: when the
inner logic raises, the exception propagates and the clearing assignment on
line 74 never runs. -/
def cmdRedo {γ : Type} (activated : Bool)
    (inner : CmdState γ → CmdState γ × Bool) (st : CmdState γ) :
    CmdState γ × Bool :=
  if ¬ activated then (st, false)
  else if st.anyCmdActive then
    ({ st with errs := st.errs ++ [redoErrMsg] }, false)
  else
    let r := inner { st with anyCmdActive := true }
    if r.2 then r else ({ r.1 with anyCmdActive := false }, false)

/-- `FlowUndoCommand.undo` (lines 76-86): same guard discipline, but with no
activation check at all. -/
def cmdUndo {γ : Type} (inner : CmdState γ → CmdState γ × Bool)
    (st : CmdState γ) : CmdState γ × Bool :=
  if st.anyCmdActive then
    ({ st with errs := st.errs ++ [undoErrMsg] }, false)
  else
    let r := inner { st with anyCmdActive := true }
    if r.2 then r else ({ r.1 with anyCmdActive := false }, false)

/-- A FlowUndoCommand abstracted to its activation flag and its two
subclass hooks. -/
structure Command (γ : Type) where
  activated : Bool
  redoInner : CmdState γ → CmdState γ × Bool
  undoInner : CmdState γ → CmdState γ × Bool

/-- Method `redo` of a command value. -/
def Command.redo {γ : Type} (c : Command γ) (st : CmdState γ) :
    CmdState γ × Bool :=
  cmdRedo c.activated c.redoInner st

/-- Method `undo` of a command value. -/
def Command.undo {γ : Type} (c : Command γ) (st : CmdState γ) :
    CmdState γ × Bool :=
  cmdUndo c.undoInner st

/-- `FlowUndoCommand.activate` (lines 56-59): set `_activated`, then call
`redo()` unless silent. -/
def Command.activate {γ : Type} (c : Command γ) (silent : Bool)
    (st : CmdState γ) : Command γ × (CmdState γ × Bool) :=
  let c2 : Command γ := { c with activated := true }
  if ¬ silent then (c2, c2.redo st) else (c2, (st, false))

/-
MoveComponentsCommand (commands.py lines 114-143).  `items_group()` creates a
fresh QGraphicsItemGroup: Qt creates the group at the origin and re-parents
the items keeping their scene positions, so `items_group.setPos(v)` translates
every listed item by `v`, and after it `items_group.pos() = v`.
-/

/-- A scene item reference held by a Move command's `items_list`. -/
inductive MoveItem where
  | node (id : Nat)
  | drawing (id : Nat)
deriving DecidableEq, Repr

/-- Effect of `items_group(); setPos(v); destroy_items_group(...)`: every
listed item is translated by `v` (see the group semantics note above). -/
def moveItems (f : Flow) (items : List MoveItem) (v : Pt) : Flow :=
  { f with
    nodes := f.nodes.map (fun n =>
      if MoveItem.node n.id ∈ items then { n with pos := n.pos.add v } else n),
    drawings := f.drawings.map (fun d =>
      if MoveItem.drawing d.id ∈ items then { d with pos := d.pos.add v } else d) }

/-- State of a MoveComponentsCommand: the captured item list, `p_from`,
`p_to`, and the mutable `last_item_group_pos`. -/
structure MoveCmd where
  items : List MoveItem
  pFrom : Pt
  pTo : Pt
  last : Pt
deriving DecidableEq, Repr

/-- `MoveComponentsCommand.__init__`: `last_item_group_pos = p_to`. -/
def mkMove (items : List MoveItem) (pFrom pTo : Pt) : MoveCmd :=
  ⟨items, pFrom, pTo, pTo⟩

/-- `MoveComponentsCommand.undo_`: set the group position to `p_from`
(translating the items by `p_from`), then record it as
`last_item_group_pos`.  The per-item `on_move()` notifications recompute
dependent view geometry and are not modelled. -/
def MoveCmd.undo_ (c : MoveCmd) (f : Flow) : MoveCmd × Flow :=
  ({ c with last := c.pFrom }, moveItems f c.items c.pFrom)

/-- `MoveComponentsCommand.redo_`: set the group position to
`p_to - last_item_group_pos`. -/
def MoveCmd.redo_ (c : MoveCmd) (f : Flow) : MoveCmd × Flow :=
  (c, moveItems f c.items (c.pTo.sub c.last))

/-- One `undo_(); redo_()` pair on a Move command. -/
def moveCycle (s : MoveCmd × Flow) : MoveCmd × Flow :=
  let u := MoveCmd.undo_ s.1 s.2
  MoveCmd.redo_ u.1 u.2

/-
PlaceNodeCommand (commands.py lines 146-175).
-/

/-- A node class handed to `create_node`.  Modelled from the spec:
`create_node(class) -> Node` instantiates a fresh node (its identity is a
function of the class here, making creation deterministic), and node
construction may raise, which `fails` encodes. -/
structure NodeClass where
  newId : Nat
  nIns : Nat
  nOuts : Nat
  fails : Bool
deriving DecidableEq, Repr

/-- Modelled from the spec: `create_node(class) -> Node`, adding the created
node to the flow; raises when node construction fails. -/
def Flow.createNode (f : Flow) (nc : NodeClass) : Except String (Node × Flow) :=
  if nc.fails then Except.error "node creation failed"
  else
    let n : Node := ⟨nc.newId, nc.nIns, nc.nOuts, Pt.zero⟩
    Except.ok (n, f.addNode n)

/-- State of a PlaceNodeCommand: the node class, the node once created
(`None` before the first redo), and the captured placement position.  The
`node_placed` signal only sets the display label and is not modelled; the
captured previous selection is view state outside the observable. -/
structure PlaceNodeCmd where
  nodeClass : NodeClass
  node : Option Node
  itemPos : Pt
deriving DecidableEq, Repr

/-- `PlaceNodeCommand.__init__`. -/
def mkPlaceNode (nc : NodeClass) (pos : Pt) : PlaceNodeCmd := ⟨nc, none, pos⟩

/-- The body of the `try:` block of `PlaceNodeCommand.redo_`: re-add the
existing node if this is a redo after an undo, otherwise create it. -/
def placeNodeOp (c : PlaceNodeCmd) (f : Flow) :
    Except String (PlaceNodeCmd × Flow) :=
  match c.node with
  | some n => Except.ok (c, f.addNode n)
  | none =>
    match f.createNode c.nodeClass with
    | Except.ok (n, f2) => Except.ok ({ c with node := some n }, f2)
    | Except.error e => Except.error e

/-- The diagnostic `traceback.print_exc()` writes for an exception. -/
def tracebackMsg (e : String) : String :=
  "Traceback (most recent call last): " ++ e

/-- `PlaceNodeCommand.redo_` (lines 166-175): run the forward logic; on an
exception, print the traceback and re-raise the same exception. -/
def PlaceNodeCmd.redo_ (c : PlaceNodeCmd) (f : Flow) (log : List String) :
    (PlaceNodeCmd × Flow × List String) × Option String :=
  match placeNodeOp c f with
  | Except.ok (c2, f2) => ((c2, f2, log), none)
  | Except.error e => ((c, f, log ++ [tracebackMsg e]), some e)

/-- `PlaceNodeCommand.undo_`: remove the node (restoring the previous view
selection is outside the observable).  Before activation `self.node` is
`None` and `remove_node(None)` would raise; the claims never reach that. -/
def PlaceNodeCmd.undo_ (c : PlaceNodeCmd) (f : Flow) : PlaceNodeCmd × Flow :=
  match c.node with
  | some n => (c, f.removeNode n)
  | none => (c, f)

/-- Activation (`activate(silent=False)` runs `redo_` once) of a fresh
PlaceNodeCommand, projected to command and flow. -/
def placeNodeActivate (nc : NodeClass) (pos : Pt) (f : Flow) :
    PlaceNodeCmd × Flow :=
  let r := PlaceNodeCmd.redo_ (mkPlaceNode nc pos) f []
  (r.1.1, r.1.2.1)

/-- One `undo_(); redo_()` pair on a PlaceNode command. -/
def placeNodeCycle (s : PlaceNodeCmd × Flow) : PlaceNodeCmd × Flow :=
  let u := PlaceNodeCmd.undo_ s.1 s.2
  let r := PlaceNodeCmd.redo_ u.1 u.2 []
  (r.1.1, r.1.2.1)

/-
PlaceDrawingCommand (commands.py lines 178-199).  The `setText` call on the
drawing object is a display-label defect noted by the spec and is outside the
observable.
-/

/-- State of a PlaceDrawingCommand: the drawing identity, the initial pen
press position, and the recorded `drawing_obj_pos`. -/
structure PlaceDrawingCmd where
  did : Nat
  placePos : Pt
  drawingObjPos : Pt
deriving DecidableEq, Repr

/-- `PlaceDrawingCommand.__init__`: `drawing_obj_pos = drawing_obj_place_pos`. -/
def mkPlaceDrawing (did : Nat) (posF : Pt) : PlaceDrawingCmd := ⟨did, posF, posF⟩

/-- `PlaceDrawingCommand.undo_`: record the drawing's current (possibly
recalculated) position, then remove it from the scene. -/
def PlaceDrawingCmd.undo_ (c : PlaceDrawingCmd) (f : Flow) :
    PlaceDrawingCmd × Flow :=
  let p := f.drawingPos c.did c.drawingObjPos
  ({ c with drawingObjPos := p }, f.removeDrawing c.did)

/-- `PlaceDrawingCommand.redo_`: re-add the drawing at the recorded
position. -/
def PlaceDrawingCmd.redo_ (c : PlaceDrawingCmd) (f : Flow) :
    PlaceDrawingCmd × Flow :=
  (c, f.addDrawing ⟨c.did, c.drawingObjPos⟩)

/-- One `undo_(); redo_()` pair on a PlaceDrawing command. -/
def placeDrawingCycle (s : PlaceDrawingCmd × Flow) : PlaceDrawingCmd × Flow :=
  let u := PlaceDrawingCmd.undo_ s.1 s.2
  PlaceDrawingCmd.redo_ u.1 u.2

/-
SelectComponentsCommand (commands.py lines 202-213): both directions only
call `select_items`, which changes the view selection set and nothing in the
graph observable.
-/

/-- State of a SelectComponentsCommand (item references by id). -/
structure SelectCmd where
  items : List Nat
  prevItems : List Nat
deriving DecidableEq, Repr

/-- `SelectComponentsCommand.redo_`: selection only; the graph observable is
untouched. -/
def SelectCmd.redo_ (c : SelectCmd) (f : Flow) : SelectCmd × Flow := (c, f)

/-- `SelectComponentsCommand.undo_`: selection only. -/
def SelectCmd.undo_ (c : SelectCmd) (f : Flow) : SelectCmd × Flow := (c, f)

/-- One `undo_(); redo_()` pair on a Select command. -/
def selectCycle (s : SelectCmd × Flow) : SelectCmd × Flow :=
  let u := SelectCmd.undo_ s.1 s.2
  SelectCmd.redo_ u.1 u.2

/-
RemoveComponentsCommand (commands.py lines 216-321).
-/

/-- An entry of the heterogeneous `items` list handed to
RemoveComponentsCommand: a NodeItem, a DrawingObject, a ConnectionItem
(carrying its connection), or anything else the isinstance checks skip. -/
inductive SceneItem where
  | node (n : Node)
  | drawing (d : Drawing)
  | conn (c : Conn)
  | other
deriving DecidableEq, Repr

/-- Python `set.add`: insert the element unless already present (the value
semantics of ConnectionInfo rest on the spec's description of it as a
value-type descriptor of the endpoints). -/
def sadd {α : Type} [DecidableEq α] (s : List α) (a : α) : List α :=
  if a ∈ s then s else s ++ [a]

/-- First classification pass of `RemoveComponentsCommand.__init__`:
collect the nodes of the NodeItems, in order. -/
def nodesOfItems (items : List SceneItem) : List Node :=
  items.filterMap (fun it =>
    match it with
    | SceneItem.node n => some n
    | _ => none)

/-- First classification pass: collect the DrawingObjects, in order. -/
def drawingsOfItems (items : List SceneItem) : List Drawing :=
  items.filterMap (fun it =>
    match it with
    | SceneItem.drawing d => some d
    | _ => none)

/-- Body of the second pass (lines 248-253): an explicitly selected
ConnectionItem whose out-port's node is not among the removed nodes is
recorded as broken; anything else is skipped. -/
def classifyItem (nids : List Nat) (s : List Conn) (it : SceneItem) :
    List Conn :=
  match it with
  | SceneItem.conn c => if c.out.node ∈ nids then s else sadd s c
  | _ => s

/-- Second pass over the items list. -/
def connItemsScan (nids : List Nat) (items : List SceneItem)
    (acc : List Conn) : List Conn :=
  items.foldl (classifyItem nids) acc

/-- The live input port list `n._inputs` of a node. -/
def inputsOf (n : Node) : List Port :=
  (List.range n.nIns).map (fun k => ⟨n.id, k, true⟩)

/-- The live output port list `n._outputs` of a node. -/
def outputsOf (n : Node) : List Port :=
  (List.range n.nOuts).map (fun k => ⟨n.id, k, false⟩)

/-- Body of the input loop (lines 256-263): for an input with a connected
output, classify the connection info as internal when the other endpoint's
node is also removed, else as broken.  The accumulator is
`(broken_connections, internal_connections)`. -/
def classifyIn (f : Flow) (nids : List Nat) (acc : List Conn × List Conn)
    (i : Port) : List Conn × List Conn :=
  match f.connectedOutput i with
  | none => acc
  | some cp =>
    if cp.node ∈ nids then (acc.1, sadd acc.2 (f.connectionInfo cp i))
    else (sadd acc.1 (f.connectionInfo cp i), acc.2)

/-- Third pass, inputs of one removed node. -/
def scanInputs (f : Flow) (nids : List Nat) (n : Node)
    (acc : List Conn × List Conn) : List Conn × List Conn :=
  (inputsOf n).foldl (classifyIn f nids) acc

/-- Body of the output loop (lines 264-270): classify the connection of one
connected input `cp` of the output `o`. -/
def classifyOut (f : Flow) (nids : List Nat) (o : Port)
    (acc : List Conn × List Conn) (cp : Port) : List Conn × List Conn :=
  if cp.node ∈ nids then (acc.1, sadd acc.2 (f.connectionInfo o cp))
  else (sadd acc.1 (f.connectionInfo o cp), acc.2)

/-- Third pass, outputs of one removed node. -/
def scanOutputs (f : Flow) (nids : List Nat) (n : Node)
    (acc : List Conn × List Conn) : List Conn × List Conn :=
  (outputsOf n).foldl (fun acc o =>
    (f.connectedInputs o).foldl (classifyOut f nids o) acc) acc

/-- Third pass over all removed nodes: per node, the input loop then the
output loop. -/
def scanNodes (f : Flow) (nids : List Nat) (ns : List Node)
    (acc : List Conn × List Conn) : List Conn × List Conn :=
  ns.foldl (fun acc n => scanOutputs f nids n (scanInputs f nids n acc)) acc

/-- State of a RemoveComponentsCommand after construction; the captured
selection is view state outside the observable. -/
structure RemoveCmd where
  nodes : List Node
  drawings : List Drawing
  broken : List Conn
  internal : List Conn
  silent : Bool
deriving DecidableEq, Repr

/-- `RemoveComponentsCommand.__init__` (lines 218-270): classify the items,
then partition the live connections touching the removed nodes. -/
def mkRemove (f : Flow) (items : List SceneItem) (silent : Bool) : RemoveCmd :=
  let nodes := nodesOfItems items
  let drawings := drawingsOfItems items
  let nids := nodes.map (fun n => n.id)
  let broken0 := connItemsScan nids items []
  let bi := scanNodes f nids nodes (broken0, [])
  ⟨nodes, drawings, bi.1, bi.2, silent⟩

/-- A `for c in cs: flow.disconnect_from_info(c, silent)` loop. -/
def removeConnsList (f : Flow) (cs : List Conn) : Flow :=
  cs.foldl Flow.disconnectFromInfo f

/-- A `for c in cs: flow.connect_from_info(c, silent)` loop. -/
def addConnsList (f : Flow) (cs : List Conn) : Flow :=
  cs.foldl Flow.connectFromInfo f

/-- A `for n in ns: flow.remove_node(n)` loop. -/
def removeNodesList (f : Flow) (ns : List Node) : Flow :=
  ns.foldl Flow.removeNode f

/-- A `for n in ns: flow.add_node(n)` loop. -/
def addNodesList (f : Flow) (ns : List Node) : Flow :=
  ns.foldl Flow.addNode f

/-- A `for d in ds: flow_view.remove_drawing(d)` loop. -/
def removeDrawingsList (f : Flow) (ds : List Drawing) : Flow :=
  ds.foldl (fun f d => f.removeDrawing d.id) f

/-- A `for d in ds: flow_view.add_drawing(d)` loop (the retained drawing
object keeps its position). -/
def addDrawingsList (f : Flow) (ds : List Drawing) : Flow :=
  ds.foldl Flow.addDrawing f

/-- `RemoveComponentsCommand.redo_` (lines 291-305): disconnect broken then
internal connections, remove the nodes, remove the drawings (the
`_on_deleted` view notifications are not modelled). -/
def RemoveCmd.redo_ (c : RemoveCmd) (f : Flow) : RemoveCmd × Flow :=
  let f1 := removeConnsList f c.broken
  let f2 := removeConnsList f1 c.internal
  let f3 := removeNodesList f2 c.nodes
  let f4 := removeDrawingsList f3 c.drawings
  (c, f4)

/-- `RemoveComponentsCommand.undo_` (lines 272-289): re-add nodes and
drawings, reconnect broken then internal connections (the `_on_restored`
notifications and the selection restore are not modelled). -/
def RemoveCmd.undo_ (c : RemoveCmd) (f : Flow) : RemoveCmd × Flow :=
  let f1 := addNodesList f c.nodes
  let f2 := addDrawingsList f1 c.drawings
  let f3 := addConnsList f2 c.broken
  let f4 := addConnsList f3 c.internal
  (c, f4)

/-- One `undo_(); redo_()` pair on a RemoveComponents command. -/
def removeCycle (s : RemoveCmd × Flow) : RemoveCmd × Flow :=
  let u := RemoveCmd.undo_ s.1 s.2
  RemoveCmd.redo_ u.1 u.2

/-
ConnectPortsCommand (commands.py lines 324-363).
-/

/-- State of a ConnectPortsCommand. -/
structure ConnectCmd where
  out : Port
  inp : Port
  silent : Bool
  info : Conn
  connection : Option Conn
  connecting : Bool
deriving DecidableEq, Repr

/-- `ConnectPortsCommand.__init__` (lines 325-341): start in connecting mode
with `connection_info((out, inp))`; scanning the output's currently connected
inputs, a match for `inp` switches to disconnecting mode and records the
existing connection (whose info is again the `(out, inp)` descriptor). -/
def mkConnect (f : Flow) (o i : Port) (silent : Bool) : ConnectCmd :=
  if i ∈ f.connectedInputs o then
    ⟨o, i, silent, f.connectionInfo o i, some ⟨o, i⟩, false⟩
  else
    ⟨o, i, silent, f.connectionInfo o i, none, true⟩

/-- `ConnectPortsCommand.undo_` (lines 343-349). -/
def ConnectCmd.undo_ (c : ConnectCmd) (f : Flow) : ConnectCmd × Flow :=
  if c.connecting then (c, f.disconnectFromInfo c.info)
  else (c, f.connectFromInfo c.info)

/-- `ConnectPortsCommand.redo_` (lines 351-363): in connecting mode,
reconnect from the info if the connection object exists already, else create
it with `connect_ports`; in disconnecting mode, remove it. -/
def ConnectCmd.redo_ (c : ConnectCmd) (f : Flow) : ConnectCmd × Flow :=
  if c.connecting then
    match c.connection with
    | some _ => (c, f.connectFromInfo c.info)
    | none =>
      let r := f.connectPorts c.out c.inp
      ({ c with connection := some r.1 }, r.2)
  else (c, f.disconnectFromInfo c.info)

/-- One `undo_(); redo_()` pair on a ConnectPorts command. -/
def connectCycle (s : ConnectCmd × Flow) : ConnectCmd × Flow :=
  let u := ConnectCmd.undo_ s.1 s.2
  ConnectCmd.redo_ u.1 u.2

/-
PasteCommand (commands.py lines 366-446).
-/

/-- A node descriptor of the clipboard data: identity, arities, and the
`pos x` / `pos y` entries. -/
structure NodeData where
  id : Nat
  nIns : Nat
  nOuts : Nat
  posX : Int
  posY : Int
deriving DecidableEq, Repr

/-- A drawing descriptor of the clipboard data. -/
structure DrawingData where
  id : Nat
  posX : Int
  posY : Int
deriving DecidableEq, Repr

/-- The clipboard data dictionary: node, connection and drawing
descriptors. -/
structure PasteData where
  nodes : List NodeData
  connections : List Conn
  drawings : List DrawingData
deriving DecidableEq, Repr

/-- `PasteCommand.modify_data_positions` (lines 384-392): add the offset to
the `pos x` / `pos y` entries of every node and drawing descriptor.  The
Python method mutates the caller's dictionary in place; here the mutated
value is returned (the caller's object and `self.data` are the same
object). -/
def modifyDataPositions (data : PasteData) (offset : Pt) : PasteData :=
  { data with
    nodes := data.nodes.map (fun nd =>
      { nd with posX := nd.posX + offset.x, posY := nd.posY + offset.y }),
    drawings := data.drawings.map (fun dd =>
      { dd with posX := dd.posX + offset.x, posY := dd.posY + offset.y }) }

/-- State of a PasteCommand: the (shifted, shared) data and the retained
instance lists, all empty until the first redo. -/
structure PasteCmd where
  data : PasteData
  nodes : List Node
  connections : List Conn
  drawings : List Drawing
deriving DecidableEq, Repr

/-- `PasteCommand.__init__` (lines 371-382): store the caller's data after
shifting its positions in place; the instance lists start empty. -/
def mkPaste (data : PasteData) (offset : Pt) : PasteCmd :=
  ⟨modifyDataPositions data offset, [], [], []⟩

/-- The node instance created for a node descriptor. -/
def nodeOfData (nd : NodeData) : Node :=
  ⟨nd.id, nd.nIns, nd.nOuts, ⟨nd.posX, nd.posY⟩⟩

/-- The drawing instance created for a drawing descriptor
(`create_drawing(d)` then `add_drawing(new_drawing, QPointF(d[pos x], d[pos y]))`). -/
def drawingOfData (dd : DrawingData) : Drawing :=
  ⟨dd.id, ⟨dd.posX, dd.posY⟩⟩

/-- Modelled from the spec: `load_components(nodes_data, conns_data) ->
(nodes, connections)`, the bulk descriptor-driven instantiation used by
Paste; it creates the components, adds them to the flow, and returns them. -/
def Flow.loadComponents (f : Flow) (nodesData : List NodeData)
    (connsData : List Conn) : (List Node × List Conn) × Flow :=
  let ns := nodesData.map nodeOfData
  ((ns, connsData),
   { f with nodes := f.nodes ++ ns, conns := f.conns ++ connsData })

/-- `PasteCommand.create_drawings` (lines 439-445): create a drawing per
descriptor, add each to the scene at the descriptor position, and collect
them in order. -/
def createDrawings (f : Flow) (dds : List DrawingData) :
    List Drawing × Flow :=
  let ds := dds.map drawingOfData
  (ds, { f with drawings := f.drawings ++ ds })

/-- The branch condition of `PasteCommand.redo_` (lines 395-397): all three
retained instance lists are empty. -/
def pasteFresh (c : PasteCmd) : Bool :=
  c.nodes.isEmpty && c.connections.isEmpty && c.drawings.isEmpty

/-- `PasteCommand.redo_` (lines 394-409): when nothing is retained yet,
create the drawings, bulk-load nodes and connections from the descriptors,
and retain them; otherwise re-add the retained instances
(`add_existing_components`, lines 420-429; the selection signals are view
state outside the observable). -/
def PasteCmd.redo_ (c : PasteCmd) (f : Flow) : PasteCmd × Flow :=
  if pasteFresh c then
    let dr := createDrawings f c.data.drawings
    let lr := Flow.loadComponents dr.2 c.data.nodes c.data.connections
    ({ c with nodes := lr.1.1, connections := lr.1.2, drawings := dr.1 }, lr.2)
  else
    let f1 := addNodesList f c.nodes
    let f2 := c.connections.foldl Flow.addConnection f1
    let f3 := addDrawingsList f2 c.drawings
    (c, f3)

/-- `PasteCommand.undo_` (lines 411-418): remove the retained connections,
nodes and drawings from the flow, keeping the instance lists. -/
def PasteCmd.undo_ (c : PasteCmd) (f : Flow) : PasteCmd × Flow :=
  let f1 := c.connections.foldl Flow.removeConnection f
  let f2 := removeNodesList f1 c.nodes
  let f3 := removeDrawingsList f2 c.drawings
  (c, f3)

/-- One `undo_(); redo_()` pair on a Paste command. -/
def pasteCycle (s : PasteCmd × Flow) : PasteCmd × Flow :=
  let u := PasteCmd.undo_ s.1 s.2
  PasteCmd.redo_ u.1 u.2

/-
Port items (ports/item.py).  `PortItem.port` (lines 111-115) and
`PortItemPin.port` (lines 299-303) share one body; the dependent view
operations are `PortItem.update` (lines 127-137), `PortItemPin.paint`
(lines 339-354) and `PortItemPin.set_state` (lines 310-326), the last
through the utility `is_connected` (lines 31-36).
-/

/-- The pin state enumeration (`PinState`, item.py lines 267-271). -/
inductive PinState where
  | DISCONNECTED
  | CONNECTED
  | VALID
  | INVALID
deriving DecidableEq, Repr

/-- The shared `port` property: `None` when the recorded index is at or
beyond the backing port list's length, else the backed port. -/
def portLookup (portList : List Port) (portIndex : Nat) : Option Port :=
  if portList.length ≤ portIndex then none else portList[portIndex]?

/-- `is_connected(port)` (item.py lines 31-36): an output is connected when
it has connected inputs, anything else is treated as an input and its
connected output is consulted — so a `None` port reaches
`port.node` and raises `AttributeError`. -/
def is_connected (f : Flow) (port : Option Port) : Except String Bool :=
  match port with
  | none => Except.error "AttributeError"
  | some p =>
    if p.isInp = false then Except.ok (!(f.connectedInputs p).isEmpty)
    else Except.ok ((f.connectedOutput p).isSome)

/-- `PortItem.update`: early return when the port is missing, else the
payload handed to `setup_PI_label` (its port and pin state; theming itself
is outside the model). -/
def portItemUpdate (portList : List Port) (portIndex : Nat)
    (pinState : PinState) : Option (Port × PinState) :=
  match portLookup portList portIndex with
  | none => none
  | some p => some (p, pinState)

/-- `PortItemPin.paint`: early return when the port is missing, else the
payload handed to `paint_PI`. -/
def pinPaint (portList : List Port) (portIndex : Nat) (st : PinState) :
    Option (Port × PinState) :=
  match portLookup portList portIndex with
  | none => none
  | some p => some (p, st)

/-- `PortItemPin.set_state` (also reached by the `state` property setter):
evaluate `is_connected(self.port)` first — so a missing port raises — and
otherwise protect a connected pin by forcing `CONNECTED`. -/
def set_state (f : Flow) (portList : List Port) (portIndex : Nat)
    (value : PinState) (protect_connection : Bool) : Except String PinState :=
  match is_connected f (portLookup portList portIndex) with
  | Except.error e => Except.error e
  | Except.ok conn =>
    Except.ok (if !(conn && protect_connection) then value else PinState.CONNECTED)

/-
Closed forms for the per-element removal loops: removing a list of keys one
by one is a sequence of filters.
-/

/-- Sequentially filter `l` by the survival test against each key of `ks`. -/
def filterRemove {α β : Type} (q : α → β → Bool) (l : List α) (ks : List β) :
    List α :=
  ks.foldl (fun l k => l.filter (fun x => q x k)) l

/-- Survival of a connection against a disconnected connection. -/
def connSurv (x k : Conn) : Bool := x ≠ k

/-- Survival of a node against a removed node (removal is by identity). -/
def nodeSurv (m k : Node) : Bool := m.id ≠ k.id

/-- Survival of a drawing against a removed drawing. -/
def drawSurv (d k : Drawing) : Bool := d.id ≠ k.id

/-
Theorems.  First the generic list machinery shared by the proofs, then the
claims in order C3, C4, C7, C5, C8, C9, C10, C2, C1, C6.
-/

/-- A fold preserves a property that every step taken over a member of the
list preserves. -/
theorem foldl_preserves_mem {σ β : Type} (step : σ → β → σ) (P : σ → Prop) :
    ∀ (l : List β), (∀ acc y, y ∈ l → P acc → P (step acc y)) →
      ∀ acc, P acc → P (l.foldl step acc) := by
  intro l
  induction l with
  | nil => intro _ acc h; simpa using h
  | cons y tl ih =>
    intro hstep acc h
    simp only [List.foldl_cons]
    exact ih (fun a z hz => hstep a z (List.mem_cons_of_mem y hz))
      (step acc y) (hstep acc y (List.mem_cons_self y tl) h)

/-- A fold attains a property that some member's step establishes from any
accumulator, provided every step over a member preserves it. -/
theorem foldl_attains_mem {σ β : Type} (step : σ → β → σ) (P : σ → Prop)
    (y0 : β) :
    ∀ (l : List β), y0 ∈ l →
      (∀ acc y, y ∈ l → P acc → P (step acc y)) →
      (∀ acc, P (step acc y0)) →
      ∀ acc, P (l.foldl step acc) := by
  intro l
  induction l with
  | nil => intro h; exact absurd h (List.not_mem_nil y0)
  | cons y tl ih =>
    intro hy0 hstep hhit acc
    simp only [List.foldl_cons]
    rcases List.mem_cons.mp hy0 with h | h
    · subst h
      exact foldl_preserves_mem step P tl
        (fun a z hz => hstep a z (List.mem_cons_of_mem y0 hz))
        (step acc y0) (hhit acc)
    · exact ih h (fun a z hz => hstep a z (List.mem_cons_of_mem y hz)) hhit
        (step acc y)

/-- Membership after a Python `set.add`. -/
theorem mem_sadd {α : Type} [DecidableEq α] (s : List α) (a x : α) :
    x ∈ sadd s a ↔ x ∈ s ∨ x = a := by
  by_cases h : a ∈ s
  · simp only [sadd, if_pos h]
    constructor
    · exact Or.inl
    · rintro (hx | rfl)
      · exact hx
      · exact h
  · simp [sadd, if_neg h]

/-- `set.add` keeps the element list duplicate-free. -/
theorem sadd_nodup {α : Type} [DecidableEq α] (s : List α) (a : α)
    (h : s.Nodup) : (sadd s a).Nodup := by
  by_cases ha : a ∈ s
  · simpa [sadd, if_pos ha] using h
  · simp only [sadd, if_neg ha]
    simpa [List.nodup_append] using ⟨h, fun hx => ha hx⟩

/-- `filterRemove` over an empty list of elements. -/
theorem filterRemove_nil {α β : Type} (q : α → β → Bool) (ks : List β) :
    filterRemove q [] ks = [] := by
  induction ks with
  | nil => rfl
  | cons k tl ih => simpa [filterRemove] using ih

/-- `filterRemove` distributes over append. -/
theorem filterRemove_append {α β : Type} (q : α → β → Bool) (ks : List β) :
    ∀ (A B : List α),
      filterRemove q (A ++ B) ks = filterRemove q A ks ++ filterRemove q B ks := by
  induction ks with
  | nil => intro A B; rfl
  | cons k tl ih =>
    intro A B
    simp only [filterRemove, List.foldl_cons, List.filter_append]
    exact ih (A.filter fun x => q x k) (B.filter fun x => q x k)

/-- Elements remaining after `filterRemove` were present and survive every
key. -/
theorem mem_filterRemove {α β : Type} (q : α → β → Bool) (ks : List β) :
    ∀ (A : List α) (x : α), x ∈ filterRemove q A ks →
      x ∈ A ∧ ∀ k ∈ ks, q x k = true := by
  induction ks with
  | nil =>
    intro A x hx
    exact ⟨hx, by simp⟩
  | cons k tl ih =>
    intro A x hx
    obtain ⟨hx2, htl⟩ := ih (A.filter fun y => q y k) x hx
    obtain ⟨hA, hk⟩ := List.mem_filter.mp hx2
    refine ⟨hA, ?_⟩
    intro k2 hk2
    rcases List.mem_cons.mp hk2 with h | h
    · subst h; exact hk
    · exact htl k2 h

/-- `filterRemove` is the identity when every element survives every key. -/
theorem filterRemove_eq_self {α β : Type} (q : α → β → Bool) (ks : List β) :
    ∀ (A : List α), (∀ x ∈ A, ∀ k ∈ ks, q x k = true) →
      filterRemove q A ks = A := by
  induction ks with
  | nil => intro A _; rfl
  | cons k tl ih =>
    intro A h
    simp only [filterRemove, List.foldl_cons]
    have hf : A.filter (fun x => q x k) = A :=
      List.filter_eq_self.mpr (fun x hx => h x hx k (List.mem_cons_self k tl))
    rw [hf]
    exact ih A (fun x hx k2 hk2 => h x hx k2 (List.mem_cons_of_mem k hk2))

/-- `filterRemove` empties a list each of whose elements is hit by some
key. -/
theorem filterRemove_eq_nil {α β : Type} (q : α → β → Bool) (ks : List β) :
    ∀ (A : List α), (∀ x ∈ A, ∃ k ∈ ks, q x k = false) →
      filterRemove q A ks = [] := by
  induction ks with
  | nil =>
    intro A h
    cases A with
    | nil => rfl
    | cons a tl =>
      obtain ⟨k, hk, _⟩ := h a (List.mem_cons_self a tl)
      exact absurd hk (List.not_mem_nil k)
  | cons k tl ih =>
    intro A h
    simp only [filterRemove, List.foldl_cons]
    refine ih (A.filter fun x => q x k) ?_
    intro x hx
    obtain ⟨hA, hq⟩ := List.mem_filter.mp hx
    obtain ⟨k0, hk0, hk0f⟩ := h x hA
    rcases List.mem_cons.mp hk0 with hh | hh
    · subst hh
      rw [hq] at hk0f
      exact absurd hk0f (by simp)
    · exact ⟨k0, hh, hk0f⟩

/-- `filterRemove` is idempotent. -/
theorem filterRemove_idem {α β : Type} (q : α → β → Bool) (ks : List β)
    (A : List α) :
    filterRemove q (filterRemove q A ks) ks = filterRemove q A ks := by
  refine filterRemove_eq_self q ks (filterRemove q A ks) ?_
  intro x hx
  exact (mem_filterRemove q ks A x hx).2

/-- The disconnect loop: a sequence of filters on the connection list. -/
theorem removeConnsList_eq (cs : List Conn) :
    ∀ (f : Flow), removeConnsList f cs
      = { f with conns := filterRemove connSurv f.conns cs } := by
  induction cs with
  | nil => intro f; rfl
  | cons c tl ih =>
    intro f
    simp only [removeConnsList, List.foldl_cons] at ih ⊢
    rw [ih]
    rfl

/-- The node-removal loop: a sequence of filters on the node list. -/
theorem removeNodesList_eq (ns : List Node) :
    ∀ (f : Flow), removeNodesList f ns
      = { f with nodes := filterRemove nodeSurv f.nodes ns } := by
  induction ns with
  | nil => intro f; rfl
  | cons n tl ih =>
    intro f
    simp only [removeNodesList, List.foldl_cons] at ih ⊢
    rw [ih]
    rfl

/-- The drawing-removal loop: a sequence of filters on the drawing list. -/
theorem removeDrawingsList_eq (ds : List Drawing) :
    ∀ (f : Flow), removeDrawingsList f ds
      = { f with drawings := filterRemove drawSurv f.drawings ds } := by
  induction ds with
  | nil => intro f; rfl
  | cons d tl ih =>
    intro f
    simp only [removeDrawingsList, List.foldl_cons] at ih ⊢
    rw [ih]
    rfl

/-- The reconnect loop appends the given connection infos in order. -/
theorem addConnsList_eq (cs : List Conn) :
    ∀ (f : Flow), addConnsList f cs = { f with conns := f.conns ++ cs } := by
  induction cs with
  | nil => intro f; simp [addConnsList]
  | cons c tl ih =>
    intro f
    simp only [addConnsList, List.foldl_cons] at ih ⊢
    rw [ih]
    simp [Flow.connectFromInfo]

/-- The node re-add loop appends the given nodes in order. -/
theorem addNodesList_eq (ns : List Node) :
    ∀ (f : Flow), addNodesList f ns = { f with nodes := f.nodes ++ ns } := by
  induction ns with
  | nil => intro f; simp [addNodesList]
  | cons n tl ih =>
    intro f
    simp only [addNodesList, List.foldl_cons] at ih ⊢
    rw [ih]
    simp [Flow.addNode]

/-- The drawing re-add loop appends the given drawings in order. -/
theorem addDrawingsList_eq (ds : List Drawing) :
    ∀ (f : Flow), addDrawingsList f ds
      = { f with drawings := f.drawings ++ ds } := by
  induction ds with
  | nil => intro f; simp [addDrawingsList]
  | cons d tl ih =>
    intro f
    simp only [addDrawingsList, List.foldl_cons] at ih ⊢
    rw [ih]
    simp [Flow.addDrawing]

/-- A function iterate keeps the second component fixed when one step does,
under an invariant on the first component. -/
theorem iterate_snd_fixed {α β : Type} (step : α × β → α × β) (Q : α → Prop)
    (b : β) (hstep : ∀ a, Q a → Q (step (a, b)).1 ∧ (step (a, b)).2 = b) :
    ∀ (k : Nat) (a : α), Q a →
      (step^[k] (a, b)).2 = b ∧ Q (step^[k] (a, b)).1 := by
  intro k
  induction k with
  | zero => intro a ha; exact ⟨rfl, ha⟩
  | succ k ih =>
    intro a ha
    have hs : step (a, b) = ((step (a, b)).1, b) :=
      Prod.ext rfl (hstep a ha).2
    rw [Function.iterate_succ_apply, hs]
    exact ih (step (a, b)).1 (hstep a ha).1

/-
Theorems.  Claims C3, C4, C7: the guard discipline of the FlowUndoCommand
entry points.
-/

/-- Claim C3, counterexample.  The claim states that whenever `redo()` passes
the reentrancy check and invokes `redo_`, the shared `_any_cmd_active` guard
is False again on exit even when the inner logic raises.  Here an activated
command whose `redo_` raises immediately is run from a quiescent state
(guard clear, graph `0`, empty log): the entry point passes the check,
invokes the inner logic, and exits with the guard still True — there is no
try/finally around lines 72-74. -/
theorem guard_release_counterexample :
    (cmdRedo true (fun st => (st, true))
      (CmdState.mk false (0 : Nat) [])).1.anyCmdActive = true := by
  decide

/-- Claim C3, amended.  When `redo()`/`undo()` pass the reentrancy check and
the inner `redo_`/`undo_` completes without raising, the guard flag is False
on exit; but when the inner logic raises, the exception propagates and the
entry point returns the state exactly as the inner logic left it (with the
guard still set), because the release assignment is not protected by a
try/finally. -/
theorem guard_release_amended (γ : Type)
    (inner : CmdState γ → CmdState γ × Bool) (st : CmdState γ)
    (hq : st.anyCmdActive = false) :
    ((inner { st with anyCmdActive := true }).2 = false →
      (cmdRedo true inner st).1.anyCmdActive = false ∧
      (cmdUndo inner st).1.anyCmdActive = false) ∧
    ((inner { st with anyCmdActive := true }).2 = true →
      cmdRedo true inner st = inner { st with anyCmdActive := true } ∧
      cmdUndo inner st = inner { st with anyCmdActive := true }) := by
  constructor
  · intro hok
    constructor
    · simp [cmdRedo, hq, hok]
    · simp [cmdUndo, hq, hok]
  · intro hraise
    constructor
    · simp [cmdRedo, hq, hraise]
    · simp [cmdUndo, hq, hraise]

/-- Claim C3, witness for the amended theorem: a concrete non-raising inner
logic leaves the guard clear on exit of both entry points, and a concrete
raising inner logic hands back exactly its own final state. -/
theorem guard_release_witness :
    ((CmdState.mk false (5 : Nat) []).anyCmdActive = false) ∧
    (((fun st : CmdState Nat => ({ st with graph := st.graph + 1 }, false))
        { CmdState.mk false (5 : Nat) [] with anyCmdActive := true }).2 = false →
      (cmdRedo true (fun st : CmdState Nat => ({ st with graph := st.graph + 1 }, false))
        (CmdState.mk false (5 : Nat) [])).1.anyCmdActive = false ∧
      (cmdUndo (fun st : CmdState Nat => ({ st with graph := st.graph + 1 }, false))
        (CmdState.mk false (5 : Nat) [])).1.anyCmdActive = false) := by
  exact ⟨by decide,
    (guard_release_amended Nat
      (fun st => ({ st with graph := st.graph + 1 }, false))
      (CmdState.mk false 5 []) (by decide)).1⟩

/-- Claim C4, counterexample.  The claim states that invoking `redo()` or
`undo()` on one command while another command's logic is executing is always
rejected with a diagnostic.  Here the outer activated command's `redo_`
invokes `redo()` of a command that was never activated: the nested call is
rejected by the activation check on line 62 before the guard check, so no
diagnostic is emitted — the final log is empty. -/
theorem reentrancy_counterexample :
    (cmdRedo true
      (fun s => cmdRedo false (fun t => ({ t with graph := t.graph + 1 }, false)) s)
      (CmdState.mk false (0 : Nat) [])).1.errs = [] := by
  decide

/-- Claim C4, amended.  While the shared guard flag is set, `redo()` of an
activated command and `undo()` of any command are rejected without executing
the inner logic (the result does not depend on it) and emit the reentrancy
diagnostic; `redo()` of an unactivated command is likewise rejected but
silently, by the activation check.  In the composed scenarios — an outer
command whose executing logic reentrantly invokes the nested entry point —
the nested logic never runs, the diagnostic is emitted exactly in the
guard-rejected cases, and the guard flag is cleared when the outer call
completes. -/
theorem reentrancy_amended (γ : Type) :
    (∀ (inner : CmdState γ → CmdState γ × Bool) (st : CmdState γ),
      st.anyCmdActive = true →
        cmdRedo true inner st = ({ st with errs := st.errs ++ [redoErrMsg] }, false) ∧
        cmdUndo inner st = ({ st with errs := st.errs ++ [undoErrMsg] }, false)) ∧
    (∀ (inner : CmdState γ → CmdState γ × Bool) (st : CmdState γ),
      cmdRedo false inner st = (st, false)) ∧
    (∀ (inner : CmdState γ → CmdState γ × Bool) (st : CmdState γ),
      st.anyCmdActive = false →
        cmdRedo true (fun s => cmdRedo true inner s) st
          = ({ st with errs := st.errs ++ [redoErrMsg] }, false) ∧
        cmdRedo true (fun s => cmdUndo inner s) st
          = ({ st with errs := st.errs ++ [undoErrMsg] }, false) ∧
        cmdUndo (fun s => cmdRedo true inner s) st
          = ({ st with errs := st.errs ++ [redoErrMsg] }, false) ∧
        cmdUndo (fun s => cmdUndo inner s) st
          = ({ st with errs := st.errs ++ [undoErrMsg] }, false)) := by
  refine ⟨?_, ?_, ?_⟩
  · intro inner st hb
    constructor
    · simp [cmdRedo, hb]
    · simp [cmdUndo, hb]
  · intro inner st
    simp [cmdRedo]
  · intro inner st hq
    refine ⟨?_, ?_, ?_, ?_⟩
    · simp [cmdRedo, hq]
    · simp [cmdRedo, cmdUndo, hq]
    · simp [cmdRedo, cmdUndo, hq]
    · simp [cmdUndo, hq]

/-- Claim C4, witness for the amended theorem: with a concrete inner logic
and a quiescent concrete state, the reentrant redo-inside-redo scenario ends
rejected, diagnosed, unexecuted, and with the guard cleared. -/
theorem reentrancy_witness :
    ((CmdState.mk false (7 : Nat) []).anyCmdActive = false) ∧
    (cmdRedo true
        (fun s => cmdRedo true (fun t : CmdState Nat => ({ t with graph := t.graph + 1 }, false)) s)
        (CmdState.mk false (7 : Nat) [])
      = ({ CmdState.mk false (7 : Nat) [] with
            errs := (CmdState.mk false (7 : Nat) []).errs ++ [redoErrMsg] }, false)) := by
  exact ⟨by decide,
    ((reentrancy_amended Nat).2.2
      (fun t => ({ t with graph := t.graph + 1 }, false))
      (CmdState.mk false 7 []) (by decide)).1⟩

/-- Claim C7, counterexample.  The claim states that before `activate()` is
called, neither `redo()` nor `undo()` executes any forward/inverse logic.
Here a never-activated command whose `undo_` increments the graph is given to
`undo()` from a quiescent state: `undo()` has no activation check (lines
76-86), so the inverse logic runs and the graph changes from 0 to 1. -/
theorem activation_counterexample :
    (Command.undo
      (Command.mk false
        (fun st : CmdState Nat => (st, false))
        (fun st => ({ st with graph := st.graph + 1 }, false)))
      (CmdState.mk false (0 : Nat) [])).1.graph = 1 := by
  decide

/-- Claim C7, amended.  `redo()` on a not-yet-activated command is a strict
no-op; `undo()` performs no activation check and executes the inverse logic
subject only to the guard; `activate(silent=True)` leaves the state untouched
while `activate(silent=False)` immediately invokes the (now activated)
forward entry point; both set the activation flag. -/
theorem activation_amended (γ : Type) :
    (∀ (c : Command γ) (st : CmdState γ), c.activated = false →
      c.redo st = (st, false)) ∧
    (∀ (c : Command γ) (st : CmdState γ),
      st.anyCmdActive = false →
      (c.undoInner { st with anyCmdActive := true }).2 = false →
      c.undo st
        = ({ (c.undoInner { st with anyCmdActive := true }).1 with
              anyCmdActive := false }, false)) ∧
    (∀ (c : Command γ) (st : CmdState γ),
      (c.activate true st).2 = (st, false) ∧
      (c.activate true st).1.activated = true) ∧
    (∀ (c : Command γ) (st : CmdState γ),
      (c.activate false st).2 = cmdRedo true c.redoInner st ∧
      (c.activate false st).1.activated = true) := by
  refine ⟨?_, ?_, ?_, ?_⟩
  · intro c st hc
    simp [Command.redo, cmdRedo, hc]
  · intro c st hq hok
    simp [Command.undo, cmdUndo, hq, hok]
  · intro c st
    constructor
    · simp [Command.activate]
    · simp [Command.activate]
  · intro c st
    constructor
    · simp [Command.activate, Command.redo]
    · simp [Command.activate]

/-- Claim C7, witness for the amended theorem: a concrete unactivated
command's `redo()` leaves a concrete state untouched. -/
theorem activation_witness :
    ((Command.mk false
        (fun st : CmdState Nat => ({ st with graph := st.graph + 1 }, false))
        (fun st => (st, false))).activated = false) ∧
    ((Command.mk false
        (fun st : CmdState Nat => ({ st with graph := st.graph + 1 }, false))
        (fun st => (st, false))).redo (CmdState.mk false (3 : Nat) [])
      = (CmdState.mk false (3 : Nat) [], false)) := by
  exact ⟨rfl,
    (activation_amended Nat).1
      (Command.mk false
        (fun st => ({ st with graph := st.graph + 1 }, false))
        (fun st => (st, false)))
      (CmdState.mk false 3 []) rfl⟩

/-
Claim C5: the ConnectPorts toggle.
-/

/-- Claim C5: constructing a ConnectPortsCommand while the input is not
connected from the output puts it in connecting mode and its `redo_` creates
the connection; a second command constructed on the same pair against the
resulting flow is in disconnecting mode (the mode is fixed at construction by
scanning the output's currently connected inputs) and its `redo_` removes the
connection instead of creating a second one. -/
theorem connect_ports_toggle (f : Flow) (o i : Port) (s1 s2 : Bool)
    (h : i ∉ f.connectedInputs o) :
    (mkConnect f o i s1).connecting = true ∧
    (⟨o, i⟩ : Conn) ∈ (ConnectCmd.redo_ (mkConnect f o i s1) f).2.conns ∧
    (mkConnect (ConnectCmd.redo_ (mkConnect f o i s1) f).2 o i s2).connecting
      = false ∧
    (⟨o, i⟩ : Conn) ∉ (ConnectCmd.redo_
        (mkConnect (ConnectCmd.redo_ (mkConnect f o i s1) f).2 o i s2)
        (ConnectCmd.redo_ (mkConnect f o i s1) f).2).2.conns := by
  have hc1 : mkConnect f o i s1 = ⟨o, i, s1, ⟨o, i⟩, none, true⟩ := by
    simp [mkConnect, h, Flow.connectionInfo]
  have hr1 : (ConnectCmd.redo_ (mkConnect f o i s1) f).2
      = { f with conns := f.conns ++ [⟨o, i⟩] } := by
    rw [hc1]
    simp [ConnectCmd.redo_, Flow.connectPorts, Flow.connectFromInfo]
  have hmem : i ∈ Flow.connectedInputs { f with conns := f.conns ++ [⟨o, i⟩] } o := by
    simp [Flow.connectedInputs, List.filter_append, List.mem_map]
  have hc2 : mkConnect (ConnectCmd.redo_ (mkConnect f o i s1) f).2 o i s2
      = ⟨o, i, s2, ⟨o, i⟩, some ⟨o, i⟩, false⟩ := by
    rw [hr1]
    simp [mkConnect, hmem, Flow.connectionInfo]
  refine ⟨by rw [hc1], ?_, by rw [hc2], ?_⟩
  · rw [hr1]
    simp
  · rw [hc2, hr1]
    simp [ConnectCmd.redo_, Flow.disconnectFromInfo, List.mem_filter]

/-- Claim C5, witness: one output and one input port on two nodes, starting
from an empty flow. -/
theorem connect_ports_toggle_witness :
    ((⟨1, 0, false⟩ : Port) ∉
      (Flow.mk [] [] []).connectedInputs ⟨0, 0, false⟩) ∧
    ((mkConnect (Flow.mk [] [] []) ⟨0, 0, false⟩ ⟨1, 0, false⟩ false).connecting
      = true ∧
    (⟨⟨0, 0, false⟩, ⟨1, 0, false⟩⟩ : Conn) ∈
      (ConnectCmd.redo_ (mkConnect (Flow.mk [] [] []) ⟨0, 0, false⟩ ⟨1, 0, false⟩ false)
        (Flow.mk [] [] [])).2.conns ∧
    (mkConnect (ConnectCmd.redo_
        (mkConnect (Flow.mk [] [] []) ⟨0, 0, false⟩ ⟨1, 0, false⟩ false)
        (Flow.mk [] [] [])).2 ⟨0, 0, false⟩ ⟨1, 0, false⟩ false).connecting
      = false ∧
    (⟨⟨0, 0, false⟩, ⟨1, 0, false⟩⟩ : Conn) ∉ (ConnectCmd.redo_
        (mkConnect (ConnectCmd.redo_
            (mkConnect (Flow.mk [] [] []) ⟨0, 0, false⟩ ⟨1, 0, false⟩ false)
            (Flow.mk [] [] [])).2 ⟨0, 0, false⟩ ⟨1, 0, false⟩ false)
        (ConnectCmd.redo_
            (mkConnect (Flow.mk [] [] []) ⟨0, 0, false⟩ ⟨1, 0, false⟩ false)
            (Flow.mk [] [] [])).2).2.conns) := by
  exact ⟨by decide,
    connect_ports_toggle (Flow.mk [] [] []) ⟨0, 0, false⟩ ⟨1, 0, false⟩
      false false (by decide)⟩

/-
Claim C8: PlaceNode failure semantics.
-/

/-- Claim C8: `PlaceNodeCommand.redo_` re-raises exactly the exceptions of
the underlying graph operation (creating, or re-adding, the node): on an
error the same exception value is re-raised after appending the traceback
diagnostic to the log and the flow is unchanged; on success nothing is
logged; and an exception occurs precisely when the node has not been created
yet and its class's construction fails. -/
theorem place_node_failure (c : PlaceNodeCmd) (f : Flow) (log : List String) :
    (∀ e, placeNodeOp c f = Except.error e →
      PlaceNodeCmd.redo_ c f log = ((c, f, log ++ [tracebackMsg e]), some e)) ∧
    (∀ r, placeNodeOp c f = Except.ok r →
      PlaceNodeCmd.redo_ c f log = ((r.1, r.2, log), none)) ∧
    ((PlaceNodeCmd.redo_ c f log).2.isSome = true ↔
      ∃ e, placeNodeOp c f = Except.error e) ∧
    ((∃ e, placeNodeOp c f = Except.error e) ↔
      (c.node = none ∧ c.nodeClass.fails = true)) := by
  refine ⟨?_, ?_, ?_, ?_⟩
  · intro e he
    simp [PlaceNodeCmd.redo_, he]
  · intro r hr
    obtain ⟨c2, f2⟩ := r
    simp [PlaceNodeCmd.redo_, hr]
  · cases hop : placeNodeOp c f with
    | ok r => simp [PlaceNodeCmd.redo_, hop]
    | error e => simp [PlaceNodeCmd.redo_, hop]
  · cases hn : c.node with
    | some n => simp [placeNodeOp, hn]
    | none =>
      by_cases hf : c.nodeClass.fails
      · simp [placeNodeOp, hn, Flow.createNode, hf]
      · simp [placeNodeOp, hn, Flow.createNode, hf]

/-- Claim C8, witness: a node class whose construction fails makes the
forward logic log a traceback and re-raise, leaving the flow unchanged. -/
theorem place_node_failure_witness :
    (placeNodeOp (mkPlaceNode ⟨9, 1, 1, true⟩ ⟨0, 0⟩) (Flow.mk [] [] [])
      = Except.error "node creation failed") ∧
    (PlaceNodeCmd.redo_ (mkPlaceNode ⟨9, 1, 1, true⟩ ⟨0, 0⟩) (Flow.mk [] [] []) []
      = ((mkPlaceNode ⟨9, 1, 1, true⟩ ⟨0, 0⟩, Flow.mk [] [] [],
          [] ++ [tracebackMsg "node creation failed"]),
         some "node creation failed")) := by
  exact ⟨rfl,
    (place_node_failure (mkPlaceNode ⟨9, 1, 1, true⟩ ⟨0, 0⟩)
        (Flow.mk [] [] []) []).1 "node creation failed" rfl⟩

/-
Claim C9: missing-port lookups.
-/

/-- Claim C9, counterexample.  The claim states that the pin-state setters
return without effect rather than raising when the recorded index is beyond
the backing port list.  Here `set_state` on a pin whose list is empty first
evaluates `is_connected(self.port)` with a `None` port, which dereferences
`port.node` and raises — it does not no-op. -/
theorem missing_port_counterexample :
    set_state (Flow.mk [] [] []) [] 0 PinState.VALID true
      = Except.error "AttributeError" := rfl

/-- Claim C9, amended.  When the recorded port index is at or beyond the
backing list's length, the shared `port` property returns None and
`PortItem.update` and `PortItemPin.paint` return without effect; but
`PortItemPin.set_state` (and hence the `state` property setter) raises,
because it evaluates `is_connected` on the missing port before the
protection test. -/
theorem missing_port_amended (f : Flow) (pl : List Port) (i : Nat)
    (v : PinState) (protect : Bool) (h : pl.length ≤ i) :
    portLookup pl i = none ∧
    portItemUpdate pl i v = none ∧
    pinPaint pl i v = none ∧
    set_state f pl i v protect = Except.error "AttributeError" := by
  have hl : portLookup pl i = none := by
    simp [portLookup, h]
  refine ⟨hl, ?_, ?_, ?_⟩
  · simp [portItemUpdate, hl]
  · simp [pinPaint, hl]
  · simp [set_state, is_connected, hl]

/-- Claim C9, witness: an empty backing list with recorded index 2. -/
theorem missing_port_witness :
    (([] : List Port).length ≤ 2) ∧
    (portLookup [] 2 = none ∧
     portItemUpdate [] 2 PinState.CONNECTED = none ∧
     pinPaint [] 2 PinState.CONNECTED = none ∧
     set_state (Flow.mk [] [] []) [] 2 PinState.CONNECTED false
       = Except.error "AttributeError") := by
  exact ⟨by decide,
    missing_port_amended (Flow.mk [] [] []) [] 2 PinState.CONNECTED false
      (by decide)⟩

/-
Claim C10: Paste construction shifts the caller's clipboard data.
-/

/-- Claim C10: constructing a PasteCommand adds the offset to the `pos x` /
`pos y` entries of every node and drawing descriptor of the data dictionary
(which the command shares with the caller — the in-place mutation is
modelled by the construction returning the caller-visible value), leaves the
connection descriptors untouched, and constructing a second PasteCommand
from the same (already shifted) data shifts every position a second time. -/
theorem paste_data_shift (data : PasteData) (off : Pt) (j : Nat) :
    ((mkPaste data off).data.nodes[j]?).map (fun nd => (nd.posX, nd.posY))
      = (data.nodes[j]?).map (fun nd => (nd.posX + off.x, nd.posY + off.y)) ∧
    ((mkPaste data off).data.drawings[j]?).map (fun dd => (dd.posX, dd.posY))
      = (data.drawings[j]?).map (fun dd => (dd.posX + off.x, dd.posY + off.y)) ∧
    (mkPaste data off).data.connections = data.connections ∧
    ((mkPaste (mkPaste data off).data off).data.nodes[j]?).map
        (fun nd => (nd.posX, nd.posY))
      = (data.nodes[j]?).map
        (fun nd => (nd.posX + 2 * off.x, nd.posY + 2 * off.y)) ∧
    ((mkPaste (mkPaste data off).data off).data.drawings[j]?).map
        (fun dd => (dd.posX, dd.posY))
      = (data.drawings[j]?).map
        (fun dd => (dd.posX + 2 * off.x, dd.posY + 2 * off.y)) := by
  refine ⟨?_, ?_, rfl, ?_, ?_⟩
  · cases h : data.nodes[j]? with
    | none => simp [mkPaste, modifyDataPositions, h]
    | some nd => simp [mkPaste, modifyDataPositions, h]
  · cases h : data.drawings[j]? with
    | none => simp [mkPaste, modifyDataPositions, h]
    | some dd => simp [mkPaste, modifyDataPositions, h]
  · cases h : data.nodes[j]? with
    | none => simp [mkPaste, modifyDataPositions, h]
    | some nd =>
      simp [mkPaste, modifyDataPositions, h]
      constructor <;> ring
  · cases h : data.drawings[j]? with
    | none => simp [mkPaste, modifyDataPositions, h]
    | some dd =>
      simp [mkPaste, modifyDataPositions, h]
      constructor <;> ring

/-
Claim C2: the RemoveComponents partition.  First the facts about the graph
lookups, then soundness / completeness of the classification passes.
-/

/-- A port reported by `connected_output` is the out endpoint of a live
connection into the given input. -/
theorem connectedOutput_mem (f : Flow) (i cp : Port)
    (h : f.connectedOutput i = some cp) : (⟨cp, i⟩ : Conn) ∈ f.conns := by
  unfold Flow.connectedOutput at h
  obtain ⟨c0, hfind, hout⟩ := Option.map_eq_some'.mp h
  have hmem := List.mem_of_find?_eq_some hfind
  have hinp : c0.inp = i := by
    have := List.find?_some hfind
    simpa using this
  have : c0 = ⟨cp, i⟩ := by
    cases c0
    simp only at hout hinp
    rw [hout, hinp]
  rw [← this]
  exact hmem

/-- With at most one live connection per input port, `connected_output`
reports exactly the out endpoint of a live connection. -/
theorem connectedOutput_eq (f : Flow) (c : Conn) (hmem : c ∈ f.conns)
    (huniq : ∀ c1 ∈ f.conns, ∀ c2 ∈ f.conns, c1.inp = c2.inp → c1 = c2) :
    f.connectedOutput c.inp = some c.out := by
  unfold Flow.connectedOutput
  cases hfind : f.conns.find? (fun x => x.inp = c.inp) with
  | none =>
    have := List.find?_eq_none.mp hfind c hmem
    simp at this
  | some c0 =>
    have hmem0 := List.mem_of_find?_eq_some hfind
    have hinp : c0.inp = c.inp := by
      have := List.find?_some hfind
      simpa using this
    have : c0 = c := huniq c0 hmem0 c hmem hinp
    rw [this]
    rfl

/-- Every live connection out of `o` contributes its input to
`connected_inputs o`. -/
theorem mem_connectedInputs (f : Flow) (c : Conn) (h : c ∈ f.conns) :
    c.inp ∈ f.connectedInputs c.out := by
  unfold Flow.connectedInputs
  exact List.mem_map.mpr ⟨c, List.mem_filter.mpr ⟨h, by simp⟩, rfl⟩

/-- Conversely a member of `connected_inputs o` comes from a live
connection. -/
theorem connectedInputs_mem (f : Flow) (o p : Port)
    (h : p ∈ f.connectedInputs o) : (⟨o, p⟩ : Conn) ∈ f.conns := by
  unfold Flow.connectedInputs at h
  obtain ⟨c0, hc0, hinp⟩ := List.mem_map.mp h
  obtain ⟨hmem, hout⟩ := List.mem_filter.mp hc0
  have hout2 : c0.out = o := by simpa using hout
  have : c0 = ⟨o, p⟩ := by
    cases c0
    simp only at hout2 hinp
    rw [hout2, hinp]
  rw [← this]
  exact hmem

/-- Characterization of membership in a node's live input list. -/
theorem mem_inputsOf (n : Node) (i : Port) :
    i ∈ inputsOf n ↔ i.node = n.id ∧ i.isInp = true ∧ i.idx < n.nIns := by
  unfold inputsOf
  constructor
  · intro h
    obtain ⟨k, hk, hi⟩ := List.mem_map.mp h
    rw [← hi]
    exact ⟨rfl, rfl, List.mem_range.mp hk⟩
  · rintro ⟨h1, h2, h3⟩
    refine List.mem_map.mpr ⟨i.idx, List.mem_range.mpr h3, ?_⟩
    cases i
    simp only at h1 h2
    rw [h1, h2]

/-- Characterization of membership in a node's live output list. -/
theorem mem_outputsOf (n : Node) (o : Port) :
    o ∈ outputsOf n ↔ o.node = n.id ∧ o.isInp = false ∧ o.idx < n.nOuts := by
  unfold outputsOf
  constructor
  · intro h
    obtain ⟨k, hk, hi⟩ := List.mem_map.mp h
    rw [← hi]
    exact ⟨rfl, rfl, List.mem_range.mp hk⟩
  · rintro ⟨h1, h2, h3⟩
    refine List.mem_map.mpr ⟨o.idx, List.mem_range.mpr h3, ?_⟩
    cases o
    simp only at h1 h2
    rw [h1, h2]

/-- The item classifier only grows the broken set. -/
theorem classifyItem_mono (nids : List Nat) (s : List Conn) (it : SceneItem)
    (x : Conn) (h : x ∈ s) : x ∈ classifyItem nids s it := by
  cases it with
  | conn c =>
    unfold classifyItem
    by_cases hc : c.out.node ∈ nids
    · simpa [hc] using h
    · simp only [if_neg hc]
      exact (mem_sadd s c x).mpr (Or.inl h)
  | node n => exact h
  | drawing d => exact h
  | other => exact h

/-- The input classifier only grows both sets. -/
theorem classifyIn_mono (f : Flow) (nids : List Nat)
    (acc : List Conn × List Conn) (i : Port) (x : Conn) :
    (x ∈ acc.1 → x ∈ (classifyIn f nids acc i).1) ∧
    (x ∈ acc.2 → x ∈ (classifyIn f nids acc i).2) := by
  unfold classifyIn
  cases h : f.connectedOutput i with
  | none => exact ⟨fun hx => hx, fun hx => hx⟩
  | some cp =>
    by_cases hc : cp.node ∈ nids
    · simp only [if_pos hc]
      exact ⟨fun hx => hx, fun hx => (mem_sadd _ _ x).mpr (Or.inl hx)⟩
    · simp only [if_neg hc]
      exact ⟨fun hx => (mem_sadd _ _ x).mpr (Or.inl hx), fun hx => hx⟩

/-- The output classifier only grows both sets. -/
theorem classifyOut_mono (f : Flow) (nids : List Nat) (o : Port)
    (acc : List Conn × List Conn) (cp : Port) (x : Conn) :
    (x ∈ acc.1 → x ∈ (classifyOut f nids o acc cp).1) ∧
    (x ∈ acc.2 → x ∈ (classifyOut f nids o acc cp).2) := by
  unfold classifyOut
  by_cases hc : cp.node ∈ nids
  · simp only [if_pos hc]
    exact ⟨fun hx => hx, fun hx => (mem_sadd _ _ x).mpr (Or.inl hx)⟩
  · simp only [if_neg hc]
    exact ⟨fun hx => (mem_sadd _ _ x).mpr (Or.inl hx), fun hx => hx⟩

/-- The input scan only grows both sets. -/
theorem scanInputs_mono (f : Flow) (nids : List Nat) (n : Node)
    (acc : List Conn × List Conn) (x : Conn) :
    (x ∈ acc.1 → x ∈ (scanInputs f nids n acc).1) ∧
    (x ∈ acc.2 → x ∈ (scanInputs f nids n acc).2) := by
  constructor
  · intro hx
    exact foldl_preserves_mem (classifyIn f nids) (fun s => x ∈ s.1)
      (inputsOf n) (fun a y _ h => (classifyIn_mono f nids a y x).1 h) acc hx
  · intro hx
    exact foldl_preserves_mem (classifyIn f nids) (fun s => x ∈ s.2)
      (inputsOf n) (fun a y _ h => (classifyIn_mono f nids a y x).2 h) acc hx

/-- The output scan only grows both sets. -/
theorem scanOutputs_mono (f : Flow) (nids : List Nat) (n : Node)
    (acc : List Conn × List Conn) (x : Conn) :
    (x ∈ acc.1 → x ∈ (scanOutputs f nids n acc).1) ∧
    (x ∈ acc.2 → x ∈ (scanOutputs f nids n acc).2) := by
  constructor
  · intro hx
    refine foldl_preserves_mem _ (fun s => x ∈ s.1) (outputsOf n) ?_ acc hx
    intro a o _ h
    exact foldl_preserves_mem (classifyOut f nids o) (fun s => x ∈ s.1)
      (f.connectedInputs o) (fun a2 cp _ h2 => (classifyOut_mono f nids o a2 cp x).1 h2) a h
  · intro hx
    refine foldl_preserves_mem _ (fun s => x ∈ s.2) (outputsOf n) ?_ acc hx
    intro a o _ h
    exact foldl_preserves_mem (classifyOut f nids o) (fun s => x ∈ s.2)
      (f.connectedInputs o) (fun a2 cp _ h2 => (classifyOut_mono f nids o a2 cp x).2 h2) a h

/-- The per-node scan (inputs then outputs) only grows both sets. -/
theorem scanNode_mono (f : Flow) (nids : List Nat) (n : Node)
    (acc : List Conn × List Conn) (x : Conn) :
    (x ∈ acc.1 → x ∈ (scanOutputs f nids n (scanInputs f nids n acc)).1) ∧
    (x ∈ acc.2 → x ∈ (scanOutputs f nids n (scanInputs f nids n acc)).2) := by
  constructor
  · intro hx
    exact (scanOutputs_mono f nids n _ x).1 ((scanInputs_mono f nids n acc x).1 hx)
  · intro hx
    exact (scanOutputs_mono f nids n _ x).2 ((scanInputs_mono f nids n acc x).2 hx)

/-- The whole third pass only grows both sets. -/
theorem scanNodes_mono (f : Flow) (nids : List Nat) (ns : List Node)
    (acc : List Conn × List Conn) (x : Conn) :
    (x ∈ acc.1 → x ∈ (scanNodes f nids ns acc).1) ∧
    (x ∈ acc.2 → x ∈ (scanNodes f nids ns acc).2) := by
  constructor
  · intro hx
    exact foldl_preserves_mem _ (fun s => x ∈ s.1) ns
      (fun a n _ h => (scanNode_mono f nids n a x).1 h) acc hx
  · intro hx
    exact foldl_preserves_mem _ (fun s => x ∈ s.2) ns
      (fun a n _ h => (scanNode_mono f nids n a x).2 h) acc hx

/-- Everything the input classifier adds to the broken set has its out
endpoint outside the removed nodes; everything it adds to the internal set
is a live connection with both endpoint nodes removed. -/
theorem classifyIn_sound (f : Flow) (nids : List Nat) (n : Node)
    (hn : n.id ∈ nids) (acc : List Conn × List Conn) (i : Port)
    (hi : i ∈ inputsOf n)
    (h1 : ∀ x ∈ acc.1, x.out.node ∉ nids ∨ x.inp.node ∉ nids)
    (h2 : ∀ x ∈ acc.2, x ∈ f.conns ∧ x.out.node ∈ nids ∧ x.inp.node ∈ nids) :
    (∀ x ∈ (classifyIn f nids acc i).1, x.out.node ∉ nids ∨ x.inp.node ∉ nids) ∧
    (∀ x ∈ (classifyIn f nids acc i).2,
      x ∈ f.conns ∧ x.out.node ∈ nids ∧ x.inp.node ∈ nids) := by
  unfold classifyIn
  cases hco : f.connectedOutput i with
  | none => exact ⟨h1, h2⟩
  | some cp =>
    by_cases hc : cp.node ∈ nids
    · simp only [if_pos hc]
      refine ⟨h1, ?_⟩
      intro x hx
      rcases (mem_sadd _ _ x).mp hx with h | h
      · exact h2 x h
      · subst h
        refine ⟨connectedOutput_mem f i cp hco, hc, ?_⟩
        have := (mem_inputsOf n i).mp hi
        show i.node ∈ nids
        rw [this.1]
        exact hn
    · simp only [if_neg hc]
      refine ⟨?_, h2⟩
      intro x hx
      rcases (mem_sadd _ _ x).mp hx with h | h
      · exact h1 x h
      · subst h
        exact Or.inl hc

/-- The corresponding soundness fact for the output classifier. -/
theorem classifyOut_sound (f : Flow) (nids : List Nat) (n : Node)
    (hn : n.id ∈ nids) (o : Port) (ho : o ∈ outputsOf n)
    (acc : List Conn × List Conn) (cp : Port)
    (hcp : cp ∈ f.connectedInputs o)
    (h1 : ∀ x ∈ acc.1, x.out.node ∉ nids ∨ x.inp.node ∉ nids)
    (h2 : ∀ x ∈ acc.2, x ∈ f.conns ∧ x.out.node ∈ nids ∧ x.inp.node ∈ nids) :
    (∀ x ∈ (classifyOut f nids o acc cp).1,
      x.out.node ∉ nids ∨ x.inp.node ∉ nids) ∧
    (∀ x ∈ (classifyOut f nids o acc cp).2,
      x ∈ f.conns ∧ x.out.node ∈ nids ∧ x.inp.node ∈ nids) := by
  unfold classifyOut
  by_cases hc : cp.node ∈ nids
  · simp only [if_pos hc]
    refine ⟨h1, ?_⟩
    intro x hx
    rcases (mem_sadd _ _ x).mp hx with h | h
    · exact h2 x h
    · subst h
      refine ⟨connectedInputs_mem f o cp hcp, ?_, hc⟩
      have := (mem_outputsOf n o).mp ho
      show o.node ∈ nids
      rw [this.1]
      exact hn
  · simp only [if_neg hc]
    refine ⟨?_, h2⟩
    intro x hx
    rcases (mem_sadd _ _ x).mp hx with h | h
    · exact h1 x h
    · subst h
      exact Or.inr hc

/-- Soundness of the whole third pass. -/
theorem scanNodes_sound (f : Flow) (nids : List Nat) (ns : List Node)
    (hn : ∀ n ∈ ns, n.id ∈ nids) (acc : List Conn × List Conn)
    (h1 : ∀ x ∈ acc.1, x.out.node ∉ nids ∨ x.inp.node ∉ nids)
    (h2 : ∀ x ∈ acc.2, x ∈ f.conns ∧ x.out.node ∈ nids ∧ x.inp.node ∈ nids) :
    (∀ x ∈ (scanNodes f nids ns acc).1,
      x.out.node ∉ nids ∨ x.inp.node ∉ nids) ∧
    (∀ x ∈ (scanNodes f nids ns acc).2,
      x ∈ f.conns ∧ x.out.node ∈ nids ∧ x.inp.node ∈ nids) := by
  refine foldl_preserves_mem _ (fun s =>
      (∀ x ∈ s.1, x.out.node ∉ nids ∨ x.inp.node ∉ nids) ∧
      (∀ x ∈ s.2, x ∈ f.conns ∧ x.out.node ∈ nids ∧ x.inp.node ∈ nids))
    ns ?_ acc ⟨h1, h2⟩
  intro a n hnmem ha
  have hnid := hn n hnmem
  have hin : (∀ x ∈ (scanInputs f nids n a).1,
      x.out.node ∉ nids ∨ x.inp.node ∉ nids) ∧
      (∀ x ∈ (scanInputs f nids n a).2,
        x ∈ f.conns ∧ x.out.node ∈ nids ∧ x.inp.node ∈ nids) := by
    refine foldl_preserves_mem (classifyIn f nids) (fun s =>
        (∀ x ∈ s.1, x.out.node ∉ nids ∨ x.inp.node ∉ nids) ∧
        (∀ x ∈ s.2, x ∈ f.conns ∧ x.out.node ∈ nids ∧ x.inp.node ∈ nids))
      (inputsOf n) ?_ a ha
    intro a2 i hi ha2
    exact classifyIn_sound f nids n hnid a2 i hi ha2.1 ha2.2
  refine foldl_preserves_mem _ (fun s =>
      (∀ x ∈ s.1, x.out.node ∉ nids ∨ x.inp.node ∉ nids) ∧
      (∀ x ∈ s.2, x ∈ f.conns ∧ x.out.node ∈ nids ∧ x.inp.node ∈ nids))
    (outputsOf n) ?_ (scanInputs f nids n a) hin
  intro a2 o ho ha2
  refine foldl_preserves_mem (classifyOut f nids o) (fun s =>
      (∀ x ∈ s.1, x.out.node ∉ nids ∨ x.inp.node ∉ nids) ∧
      (∀ x ∈ s.2, x ∈ f.conns ∧ x.out.node ∈ nids ∧ x.inp.node ∈ nids))
    (f.connectedInputs o) ?_ a2 ha2
  intro a3 cp hcp ha3
  exact classifyOut_sound f nids n hnid o ho a3 cp hcp ha3.1 ha3.2

/-- Everything the second pass adds to the broken set has its out endpoint
outside the removed nodes. -/
theorem connItemsScan_sound (nids : List Nat) (items : List SceneItem)
    (acc : List Conn) (h : ∀ x ∈ acc, x.out.node ∉ nids) :
    ∀ x ∈ connItemsScan nids items acc, x.out.node ∉ nids := by
  refine foldl_preserves_mem (classifyItem nids)
    (fun s => ∀ x ∈ s, x.out.node ∉ nids) items ?_ acc h
  intro a it _ ha
  cases it with
  | conn c =>
    unfold classifyItem
    by_cases hc : c.out.node ∈ nids
    · simpa [hc] using ha
    · simp only [if_neg hc]
      intro x hx
      rcases (mem_sadd _ _ x).mp hx with hmem | hmem
      · exact ha x hmem
      · subst hmem; exact hc
  | node n => exact ha
  | drawing d => exact ha
  | other => exact ha

/-- The input classifier records the connection of a connected input. -/
theorem classifyIn_hit (f : Flow) (nids : List Nat)
    (acc : List Conn × List Conn) (i cp : Port)
    (hco : f.connectedOutput i = some cp) :
    (cp.node ∈ nids → (⟨cp, i⟩ : Conn) ∈ (classifyIn f nids acc i).2) ∧
    (cp.node ∉ nids → (⟨cp, i⟩ : Conn) ∈ (classifyIn f nids acc i).1) := by
  unfold classifyIn
  rw [hco]
  constructor
  · intro hc
    simp only [if_pos hc]
    exact (mem_sadd _ _ _).mpr (Or.inr rfl)
  · intro hc
    simp only [if_neg hc]
    exact (mem_sadd _ _ _).mpr (Or.inr rfl)

/-- The output classifier records the connection of a connected input. -/
theorem classifyOut_hit (f : Flow) (nids : List Nat) (o : Port)
    (acc : List Conn × List Conn) (cp : Port) :
    (cp.node ∈ nids → (⟨o, cp⟩ : Conn) ∈ (classifyOut f nids o acc cp).2) ∧
    (cp.node ∉ nids → (⟨o, cp⟩ : Conn) ∈ (classifyOut f nids o acc cp).1) := by
  unfold classifyOut
  constructor
  · intro hc
    simp only [if_pos hc]
    exact (mem_sadd _ _ _).mpr (Or.inr rfl)
  · intro hc
    simp only [if_neg hc]
    exact (mem_sadd _ _ _).mpr (Or.inr rfl)

/-- The item classifier records a selected connection whose source is
outside the removed nodes. -/
theorem classifyItem_hit (nids : List Nat) (s : List Conn) (c : Conn)
    (h : c.out.node ∉ nids) : c ∈ classifyItem nids s (SceneItem.conn c) := by
  unfold classifyItem
  simp only [if_neg h]
  exact (mem_sadd _ _ _).mpr (Or.inr rfl)

/-- Completeness through the input side: a live connection whose input
endpoint belongs to a scanned node is classified, on the side given by its
out endpoint. -/
theorem scanNodes_complete_inp (f : Flow) (nids : List Nat) (ns : List Node)
    (acc : List Conn × List Conn) (c : Conn) (n : Node) (hmemn : n ∈ ns)
    (hco : f.connectedOutput c.inp = some c.out)
    (hin : c.inp ∈ inputsOf n) :
    (c.out.node ∈ nids → c ∈ (scanNodes f nids ns acc).2) ∧
    (c.out.node ∉ nids → c ∈ (scanNodes f nids ns acc).1) := by
  constructor
  · intro hc
    refine foldl_attains_mem _ (fun s => c ∈ s.2) n ns hmemn
      (fun a m _ h => (scanNode_mono f nids m a c).2 h) ?_ acc
    intro a
    refine (scanOutputs_mono f nids n _ c).2 ?_
    refine foldl_attains_mem (classifyIn f nids) (fun s => c ∈ s.2) c.inp
      (inputsOf n) hin
      (fun a2 i _ h => (classifyIn_mono f nids a2 i c).2 h) ?_ a
    intro a2
    exact (classifyIn_hit f nids a2 c.inp c.out hco).1 hc
  · intro hc
    refine foldl_attains_mem _ (fun s => c ∈ s.1) n ns hmemn
      (fun a m _ h => (scanNode_mono f nids m a c).1 h) ?_ acc
    intro a
    refine (scanOutputs_mono f nids n _ c).1 ?_
    refine foldl_attains_mem (classifyIn f nids) (fun s => c ∈ s.1) c.inp
      (inputsOf n) hin
      (fun a2 i _ h => (classifyIn_mono f nids a2 i c).1 h) ?_ a
    intro a2
    exact (classifyIn_hit f nids a2 c.inp c.out hco).2 hc

/-- Completeness through the output side: a live connection whose output
endpoint belongs to a scanned node is classified, on the side given by its
input endpoint. -/
theorem scanNodes_complete_out (f : Flow) (nids : List Nat) (ns : List Node)
    (acc : List Conn × List Conn) (c : Conn) (n : Node) (hmemn : n ∈ ns)
    (hcmem : c ∈ f.conns) (hout : c.out ∈ outputsOf n) :
    (c.inp.node ∈ nids → c ∈ (scanNodes f nids ns acc).2) ∧
    (c.inp.node ∉ nids → c ∈ (scanNodes f nids ns acc).1) := by
  have hinner : ∀ (a : List Conn × List Conn),
      (c.inp.node ∈ nids →
        c ∈ ((f.connectedInputs c.out).foldl (classifyOut f nids c.out) a).2) ∧
      (c.inp.node ∉ nids →
        c ∈ ((f.connectedInputs c.out).foldl (classifyOut f nids c.out) a).1) := by
    intro a
    constructor
    · intro hc
      refine foldl_attains_mem (classifyOut f nids c.out) (fun s => c ∈ s.2)
        c.inp (f.connectedInputs c.out) (mem_connectedInputs f c hcmem)
        (fun a2 cp _ h => (classifyOut_mono f nids c.out a2 cp c).2 h) ?_ a
      intro a2
      exact (classifyOut_hit f nids c.out a2 c.inp).1 hc
    · intro hc
      refine foldl_attains_mem (classifyOut f nids c.out) (fun s => c ∈ s.1)
        c.inp (f.connectedInputs c.out) (mem_connectedInputs f c hcmem)
        (fun a2 cp _ h => (classifyOut_mono f nids c.out a2 cp c).1 h) ?_ a
      intro a2
      exact (classifyOut_hit f nids c.out a2 c.inp).2 hc
  constructor
  · intro hc
    refine foldl_attains_mem _ (fun s => c ∈ s.2) n ns hmemn
      (fun a m _ h => (scanNode_mono f nids m a c).2 h) ?_ acc
    intro a
    show c ∈ (scanOutputs f nids n (scanInputs f nids n a)).2
    unfold scanOutputs
    refine foldl_attains_mem _ (fun s => c ∈ s.2) c.out (outputsOf n) hout
      ?_ ?_ (scanInputs f nids n a)
    · intro a2 o _ h
      exact foldl_preserves_mem (classifyOut f nids o) (fun s => c ∈ s.2)
        (f.connectedInputs o)
        (fun a3 cp _ h2 => (classifyOut_mono f nids o a3 cp c).2 h2) a2 h
    · intro a2
      exact (hinner a2).1 hc
  · intro hc
    refine foldl_attains_mem _ (fun s => c ∈ s.1) n ns hmemn
      (fun a m _ h => (scanNode_mono f nids m a c).1 h) ?_ acc
    intro a
    show c ∈ (scanOutputs f nids n (scanInputs f nids n a)).1
    unfold scanOutputs
    refine foldl_attains_mem _ (fun s => c ∈ s.1) c.out (outputsOf n) hout
      ?_ ?_ (scanInputs f nids n a)
    · intro a2 o _ h
      exact foldl_preserves_mem (classifyOut f nids o) (fun s => c ∈ s.1)
        (f.connectedInputs o)
        (fun a3 cp _ h2 => (classifyOut_mono f nids o a3 cp c).1 h2) a2 h
    · intro a2
      exact (hinner a2).2 hc

/-- Completeness of the second pass: a selected connection item whose out
endpoint is outside the removed nodes is recorded. -/
theorem connItemsScan_complete (nids : List Nat) (items : List SceneItem)
    (acc : List Conn) (c : Conn) (hit : SceneItem.conn c ∈ items)
    (h : c.out.node ∉ nids) : c ∈ connItemsScan nids items acc := by
  refine foldl_attains_mem (classifyItem nids) (fun s => c ∈ s)
    (SceneItem.conn c) items hit
    (fun a it _ hmem => classifyItem_mono nids a it c hmem) ?_ acc
  intro a
  exact classifyItem_hit nids a c h

/-- The second pass keeps the broken set duplicate-free. -/
theorem connItemsScan_nodup (nids : List Nat) (items : List SceneItem)
    (acc : List Conn) (h : acc.Nodup) : (connItemsScan nids items acc).Nodup := by
  refine foldl_preserves_mem (classifyItem nids) (fun s => s.Nodup) items
    ?_ acc h
  intro a it _ ha
  cases it with
  | conn c =>
    unfold classifyItem
    by_cases hc : c.out.node ∈ nids
    · simpa [hc] using ha
    · simp only [if_neg hc]
      exact sadd_nodup a c ha
  | node n => exact ha
  | drawing d => exact ha
  | other => exact ha

/-- The third pass keeps both sets duplicate-free. -/
theorem scanNodes_nodup (f : Flow) (nids : List Nat) (ns : List Node)
    (acc : List Conn × List Conn) (h1 : acc.1.Nodup) (h2 : acc.2.Nodup) :
    (scanNodes f nids ns acc).1.Nodup ∧ (scanNodes f nids ns acc).2.Nodup := by
  refine foldl_preserves_mem _ (fun s => s.1.Nodup ∧ s.2.Nodup) ns ?_ acc ⟨h1, h2⟩
  intro a n _ ha
  have hin : (scanInputs f nids n a).1.Nodup ∧ (scanInputs f nids n a).2.Nodup := by
    refine foldl_preserves_mem (classifyIn f nids)
      (fun s => s.1.Nodup ∧ s.2.Nodup) (inputsOf n) ?_ a ha
    intro a2 i _ ha2
    unfold classifyIn
    cases hco : f.connectedOutput i with
    | none => exact ha2
    | some cp =>
      by_cases hc : cp.node ∈ nids
      · simp only [if_pos hc]
        exact ⟨ha2.1, sadd_nodup _ _ ha2.2⟩
      · simp only [if_neg hc]
        exact ⟨sadd_nodup _ _ ha2.1, ha2.2⟩
  refine foldl_preserves_mem _ (fun s => s.1.Nodup ∧ s.2.Nodup) (outputsOf n)
    ?_ (scanInputs f nids n a) hin
  intro a2 o _ ha2
  refine foldl_preserves_mem (classifyOut f nids o)
    (fun s => s.1.Nodup ∧ s.2.Nodup) (f.connectedInputs o) ?_ a2 ha2
  intro a3 cp _ ha3
  unfold classifyOut
  by_cases hc : cp.node ∈ nids
  · simp only [if_pos hc]
    exact ⟨ha3.1, sadd_nodup _ _ ha3.2⟩
  · simp only [if_neg hc]
    exact ⟨sadd_nodup _ _ ha3.1, ha3.2⟩

/-- Claim C2: for a RemoveComponentsCommand built over a well-formed flow
(connection endpoints of removed nodes name real ports of those nodes, and
each input port holds at most one live connection), every live connection
with both endpoint nodes removed is recorded internal, every live connection
with exactly one endpoint node removed is recorded broken, connections of
explicitly selected connection items whose source node is outside the
removed set are recorded broken, no connection is recorded on both sides,
and each set records each connection at most once (Python set semantics over
the value identity of the endpoint descriptors). -/
theorem remove_components_partition (f : Flow) (items : List SceneItem)
    (silent : Bool)
    (hport : ∀ c ∈ f.conns, ∀ n ∈ nodesOfItems items,
      (c.inp.node = n.id → c.inp.isInp = true ∧ c.inp.idx < n.nIns) ∧
      (c.out.node = n.id → c.out.isInp = false ∧ c.out.idx < n.nOuts))
    (huniq : ∀ c1 ∈ f.conns, ∀ c2 ∈ f.conns, c1.inp = c2.inp → c1 = c2) :
    (∀ c ∈ f.conns,
      c.out.node ∈ (nodesOfItems items).map (fun n => n.id) →
      c.inp.node ∈ (nodesOfItems items).map (fun n => n.id) →
      c ∈ (mkRemove f items silent).internal) ∧
    (∀ c ∈ f.conns,
      c.out.node ∈ (nodesOfItems items).map (fun n => n.id) →
      c.inp.node ∉ (nodesOfItems items).map (fun n => n.id) →
      c ∈ (mkRemove f items silent).broken) ∧
    (∀ c ∈ f.conns,
      c.out.node ∉ (nodesOfItems items).map (fun n => n.id) →
      c.inp.node ∈ (nodesOfItems items).map (fun n => n.id) →
      c ∈ (mkRemove f items silent).broken) ∧
    (∀ c : Conn, SceneItem.conn c ∈ items →
      c.out.node ∉ (nodesOfItems items).map (fun n => n.id) →
      c ∈ (mkRemove f items silent).broken) ∧
    (∀ c : Conn, ¬ (c ∈ (mkRemove f items silent).internal ∧
      c ∈ (mkRemove f items silent).broken)) ∧
    (mkRemove f items silent).internal.Nodup ∧
    (mkRemove f items silent).broken.Nodup := by
  have hbroken : (mkRemove f items silent).broken
      = (scanNodes f ((nodesOfItems items).map (fun n => n.id))
          (nodesOfItems items)
          (connItemsScan ((nodesOfItems items).map (fun n => n.id)) items [],
           [])).1 := rfl
  have hinternal : (mkRemove f items silent).internal
      = (scanNodes f ((nodesOfItems items).map (fun n => n.id))
          (nodesOfItems items)
          (connItemsScan ((nodesOfItems items).map (fun n => n.id)) items [],
           [])).2 := rfl
  have hsound := scanNodes_sound f ((nodesOfItems items).map (fun n => n.id))
    (nodesOfItems items) (fun n hn => List.mem_map_of_mem (fun n => n.id) hn)
    (connItemsScan ((nodesOfItems items).map (fun n => n.id)) items [], [])
    (fun x hx => Or.inl (connItemsScan_sound _ items [] (by simp) x hx))
    (fun x hx => absurd hx (List.not_mem_nil x))
  refine ⟨?_, ?_, ?_, ?_, ?_, ?_, ?_⟩
  · intro c hc hcout hcin
    obtain ⟨n, hn, hid⟩ := List.mem_map.mp hcin
    have hw := (hport c hc n hn).1 hid.symm
    have hin : c.inp ∈ inputsOf n :=
      (mem_inputsOf n c.inp).mpr ⟨hid.symm, hw.1, hw.2⟩
    have hco := connectedOutput_eq f c hc huniq
    rw [hinternal]
    exact (scanNodes_complete_inp f _ _ _ c n hn hco hin).1 hcout
  · intro c hc hcout hcin
    obtain ⟨n, hn, hid⟩ := List.mem_map.mp hcout
    have hw := (hport c hc n hn).2 hid.symm
    have hout : c.out ∈ outputsOf n :=
      (mem_outputsOf n c.out).mpr ⟨hid.symm, hw.1, hw.2⟩
    rw [hbroken]
    exact (scanNodes_complete_out f _ _ _ c n hn hc hout).2 hcin
  · intro c hc hcout hcin
    obtain ⟨n, hn, hid⟩ := List.mem_map.mp hcin
    have hw := (hport c hc n hn).1 hid.symm
    have hin : c.inp ∈ inputsOf n :=
      (mem_inputsOf n c.inp).mpr ⟨hid.symm, hw.1, hw.2⟩
    have hco := connectedOutput_eq f c hc huniq
    rw [hbroken]
    exact (scanNodes_complete_inp f _ _ _ c n hn hco hin).2 hcout
  · intro c hitem hcout
    rw [hbroken]
    exact (scanNodes_mono f _ _ _ c).1
      (connItemsScan_complete _ items [] c hitem hcout)
  · rintro c ⟨hi, hb⟩
    rw [hinternal] at hi
    rw [hbroken] at hb
    have hips := hsound.2 c hi
    rcases hsound.1 c hb with h | h
    · exact h hips.2.1
    · exact h hips.2.2
  · rw [hinternal]
    exact (scanNodes_nodup f _ _ _
      (connItemsScan_nodup _ items [] List.nodup_nil) List.nodup_nil).2
  · rw [hbroken]
    exact (scanNodes_nodup f _ _ _
      (connItemsScan_nodup _ items [] List.nodup_nil) List.nodup_nil).1

/-- Claim C2, witness: the spec's example scenario — nodes A, B, C with
connections A→B and B→C, removing B — classifies both connections broken,
with duplicate-free sets. -/
theorem remove_components_partition_witness :
    ((∀ c ∈ (Flow.mk
        [⟨1, 0, 1, ⟨0, 0⟩⟩, ⟨2, 1, 1, ⟨0, 0⟩⟩, ⟨3, 1, 0, ⟨0, 0⟩⟩]
        [⟨⟨1, 0, false⟩, ⟨2, 0, true⟩⟩, ⟨⟨2, 0, false⟩, ⟨3, 0, true⟩⟩]
        []).conns,
      ∀ n ∈ nodesOfItems [SceneItem.node ⟨2, 1, 1, ⟨0, 0⟩⟩],
        (c.inp.node = n.id → c.inp.isInp = true ∧ c.inp.idx < n.nIns) ∧
        (c.out.node = n.id → c.out.isInp = false ∧ c.out.idx < n.nOuts)) ∧
     (∀ c1 ∈ (Flow.mk
        [⟨1, 0, 1, ⟨0, 0⟩⟩, ⟨2, 1, 1, ⟨0, 0⟩⟩, ⟨3, 1, 0, ⟨0, 0⟩⟩]
        [⟨⟨1, 0, false⟩, ⟨2, 0, true⟩⟩, ⟨⟨2, 0, false⟩, ⟨3, 0, true⟩⟩]
        []).conns,
      ∀ c2 ∈ (Flow.mk
        [⟨1, 0, 1, ⟨0, 0⟩⟩, ⟨2, 1, 1, ⟨0, 0⟩⟩, ⟨3, 1, 0, ⟨0, 0⟩⟩]
        [⟨⟨1, 0, false⟩, ⟨2, 0, true⟩⟩, ⟨⟨2, 0, false⟩, ⟨3, 0, true⟩⟩]
        []).conns, c1.inp = c2.inp → c1 = c2)) ∧
    ((⟨⟨1, 0, false⟩, ⟨2, 0, true⟩⟩ : Conn) ∈ (mkRemove (Flow.mk
        [⟨1, 0, 1, ⟨0, 0⟩⟩, ⟨2, 1, 1, ⟨0, 0⟩⟩, ⟨3, 1, 0, ⟨0, 0⟩⟩]
        [⟨⟨1, 0, false⟩, ⟨2, 0, true⟩⟩, ⟨⟨2, 0, false⟩, ⟨3, 0, true⟩⟩]
        []) [SceneItem.node ⟨2, 1, 1, ⟨0, 0⟩⟩] false).broken ∧
     (⟨⟨2, 0, false⟩, ⟨3, 0, true⟩⟩ : Conn) ∈ (mkRemove (Flow.mk
        [⟨1, 0, 1, ⟨0, 0⟩⟩, ⟨2, 1, 1, ⟨0, 0⟩⟩, ⟨3, 1, 0, ⟨0, 0⟩⟩]
        [⟨⟨1, 0, false⟩, ⟨2, 0, true⟩⟩, ⟨⟨2, 0, false⟩, ⟨3, 0, true⟩⟩]
        []) [SceneItem.node ⟨2, 1, 1, ⟨0, 0⟩⟩] false).broken ∧
     (mkRemove (Flow.mk
        [⟨1, 0, 1, ⟨0, 0⟩⟩, ⟨2, 1, 1, ⟨0, 0⟩⟩, ⟨3, 1, 0, ⟨0, 0⟩⟩]
        [⟨⟨1, 0, false⟩, ⟨2, 0, true⟩⟩, ⟨⟨2, 0, false⟩, ⟨3, 0, true⟩⟩]
        []) [SceneItem.node ⟨2, 1, 1, ⟨0, 0⟩⟩] false).internal.Nodup) := by
  refine ⟨⟨by decide, by decide⟩, ?_, ?_, ?_⟩
  · exact (remove_components_partition _ _ false (by decide) (by decide)).2.2.1
      ⟨⟨1, 0, false⟩, ⟨2, 0, true⟩⟩ (by decide) (by decide) (by decide)
  · exact (remove_components_partition _ _ false (by decide) (by decide)).2.1
      ⟨⟨2, 0, false⟩, ⟨3, 0, true⟩⟩ (by decide) (by decide) (by decide)
  · exact (remove_components_partition _ _ false (by decide) (by decide)).2.2.2.2.2.1

/-
Claims C1 and C6: undo/redo cycles.  Per-command lemmas showing that one
`undo_(); redo_()` pair is the identity on the activated state.
-/

/-- Translating by the zero vector is the identity. -/
theorem moveItems_zero (f : Flow) (I : List MoveItem) :
    moveItems f I Pt.zero = f := by
  unfold moveItems
  have hn : (fun n : Node =>
      if MoveItem.node n.id ∈ I then { n with pos := n.pos.add Pt.zero } else n)
      = id := by
    funext n
    by_cases h : MoveItem.node n.id ∈ I
    · simp only [if_pos h, id]
      cases n with
      | mk i a b p => cases p; simp [Pt.add, Pt.zero]
    · simp [h]
  have hd : (fun d : Drawing =>
      if MoveItem.drawing d.id ∈ I then { d with pos := d.pos.add Pt.zero } else d)
      = id := by
    funext d
    by_cases h : MoveItem.drawing d.id ∈ I
    · simp only [if_pos h, id]
      cases d with
      | mk i p => cases p; simp [Pt.add, Pt.zero]
    · simp [h]
  rw [hn, hd]
  simp

/-- Two translations of the same item set compose additively. -/
theorem moveItems_add (f : Flow) (I : List MoveItem) (v w : Pt) :
    moveItems (moveItems f I v) I w = moveItems f I (v.add w) := by
  unfold moveItems
  simp only [List.map_map]
  have hn : ((fun n : Node =>
      if MoveItem.node n.id ∈ I then { n with pos := n.pos.add w } else n) ∘
      (fun n : Node =>
      if MoveItem.node n.id ∈ I then { n with pos := n.pos.add v } else n))
      = (fun n : Node =>
      if MoveItem.node n.id ∈ I then { n with pos := n.pos.add (v.add w) } else n) := by
    funext n
    cases n with
    | mk i a b p =>
      by_cases h : MoveItem.node i ∈ I
      · cases p
        simp only [Function.comp, if_pos h, Pt.add]
        simp
        omega
      · simp [Function.comp, h]
  have hd : ((fun d : Drawing =>
      if MoveItem.drawing d.id ∈ I then { d with pos := d.pos.add w } else d) ∘
      (fun d : Drawing =>
      if MoveItem.drawing d.id ∈ I then { d with pos := d.pos.add v } else d))
      = (fun d : Drawing =>
      if MoveItem.drawing d.id ∈ I then { d with pos := d.pos.add (v.add w) } else d) := by
    funext d
    cases d with
    | mk i p =>
      by_cases h : MoveItem.drawing i ∈ I
      · cases p
        simp only [Function.comp, if_pos h, Pt.add]
        simp
        omega
      · simp [Function.comp, h]
  rw [hn, hd]

/-- A translation followed by its inverse is the zero translation. -/
theorem pt_cancel (v : Pt) : v.add (Pt.zero.sub v) = Pt.zero := by
  cases v
  simp [Pt.add, Pt.sub, Pt.zero]

/-- An undo/redo pair on a Move command whose `p_to` is the origin leaves
the graph unchanged (the command's recorded group position changes). -/
theorem move_cycle_graph (c : MoveCmd) (f : Flow) (h : c.pTo = Pt.zero) :
    (moveCycle (c, f)).1.pTo = Pt.zero ∧ (moveCycle (c, f)).2 = f := by
  unfold moveCycle MoveCmd.undo_ MoveCmd.redo_
  refine ⟨by simpa using h, ?_⟩
  show moveItems (moveItems f c.items c.pFrom) c.items (c.pTo.sub c.pFrom) = f
  rw [moveItems_add, h]
  have : c.pFrom.add (Pt.zero.sub c.pFrom) = Pt.zero := pt_cancel c.pFrom
  rw [this, moveItems_zero]

/-- Claim C1, Move part: with `p_to` the origin (the form the view layer
constructs), any number of undo/redo pairs preserves the observable
state reached by activation. -/
theorem move_undo_redo_restores (I : List MoveItem) (pf : Pt) (f : Flow)
    (k : Nat) :
    obs ((moveCycle^[k] (MoveCmd.redo_ (mkMove I pf Pt.zero) f)).2)
      = obs ((MoveCmd.redo_ (mkMove I pf Pt.zero) f).2) := by
  have hact : MoveCmd.redo_ (mkMove I pf Pt.zero) f = (mkMove I pf Pt.zero, f) := by
    unfold MoveCmd.redo_ mkMove
    have hz : Pt.zero.sub Pt.zero = Pt.zero := by decide
    simp only [hz]
    rw [moveItems_zero]
  rw [hact]
  have hiter := iterate_snd_fixed moveCycle (fun a => a.pTo = Pt.zero) f
    (fun a ha => ⟨(move_cycle_graph a f ha).1, (move_cycle_graph a f ha).2⟩)
    k (mkMove I pf Pt.zero) rfl
  rw [hiter.1]

/-- Activation of a PlaceNode command over a non-failing class creates the
node and appends it. -/
theorem placeNode_activate_eq (nc : NodeClass) (pos : Pt) (f : Flow)
    (hfail : nc.fails = false) :
    placeNodeActivate nc pos f
      = (⟨nc, some ⟨nc.newId, nc.nIns, nc.nOuts, Pt.zero⟩, pos⟩,
         f.addNode ⟨nc.newId, nc.nIns, nc.nOuts, Pt.zero⟩) := by
  unfold placeNodeActivate PlaceNodeCmd.redo_ placeNodeOp mkPlaceNode Flow.createNode
  simp [hfail]

/-- An undo/redo pair on an activated PlaceNode command over a fresh node
identity is the identity. -/
theorem placeNode_cycle_fixed (nc : NodeClass) (n : Node) (pos : Pt) (f : Flow)
    (hfresh : ∀ m ∈ f.nodes, m.id ≠ n.id) :
    placeNodeCycle (⟨nc, some n, pos⟩, f.addNode n)
      = (⟨nc, some n, pos⟩, f.addNode n) := by
  have hrm : (f.addNode n).removeNode n = f := by
    unfold Flow.addNode Flow.removeNode
    simp only [List.filter_append]
    have h1 : f.nodes.filter (fun m => m.id ≠ n.id) = f.nodes :=
      List.filter_eq_self.mpr (fun m hm => by simpa using hfresh m hm)
    have h2 : [n].filter (fun m => m.id ≠ n.id) = [] := by simp
    rw [h1, h2]
    simp
  unfold placeNodeCycle PlaceNodeCmd.undo_
  simp only [hrm]
  unfold PlaceNodeCmd.redo_ placeNodeOp
  simp

/-- Claim C1, PlaceNode part: after successful activation over a fresh node
identity, any number of undo/redo pairs preserves the observable state. -/
theorem placeNode_undo_redo_restores (nc : NodeClass) (pos : Pt) (f : Flow)
    (k : Nat) (hfail : nc.fails = false)
    (hfresh : ∀ m ∈ f.nodes, m.id ≠ nc.newId) :
    obs ((placeNodeCycle^[k] (placeNodeActivate nc pos f)).2)
      = obs (placeNodeActivate nc pos f).2 := by
  rw [placeNode_activate_eq nc pos f hfail]
  rw [Function.iterate_fixed
    (placeNode_cycle_fixed nc ⟨nc.newId, nc.nIns, nc.nOuts, Pt.zero⟩ pos f
      (fun m hm => hfresh m hm)) k]

/-- `find?` skips a prefix with no matches. -/
theorem find_append_none {α : Type} (p : α → Bool) :
    ∀ (A B : List α), (∀ a ∈ A, p a = false) →
      (A ++ B).find? p = B.find? p := by
  intro A
  induction A with
  | nil => intro B _; rfl
  | cons a tl ih =>
    intro B h
    have ha : p a = false := h a (List.mem_cons_self a tl)
    simp only [List.cons_append]
    rw [List.find?_cons_of_neg _ (by simp [ha]), ih B
      (fun x hx => h x (List.mem_cons_of_mem a hx))]

/-- An undo/redo pair on an activated PlaceDrawing command over a fresh
drawing identity is the identity. -/
theorem placeDrawing_cycle_fixed (did : Nat) (p : Pt) (f : Flow)
    (hfresh : ∀ d ∈ f.drawings, d.id ≠ did) :
    placeDrawingCycle (⟨did, p, p⟩, f.addDrawing ⟨did, p⟩)
      = (⟨did, p, p⟩, f.addDrawing ⟨did, p⟩) := by
  have hpos : (f.addDrawing ⟨did, p⟩).drawingPos did p = p := by
    unfold Flow.addDrawing Flow.drawingPos
    simp only
    rw [find_append_none _ f.drawings [⟨did, p⟩]
      (fun d hd => by simpa using hfresh d hd)]
    simp
  have hrm : (f.addDrawing ⟨did, p⟩).removeDrawing did = f := by
    unfold Flow.addDrawing Flow.removeDrawing
    simp only [List.filter_append]
    have h1 : f.drawings.filter (fun d => d.id ≠ did) = f.drawings :=
      List.filter_eq_self.mpr (fun d hd => by simpa using hfresh d hd)
    have h2 : [(⟨did, p⟩ : Drawing)].filter (fun d => d.id ≠ did) = [] := by simp
    rw [h1, h2]
    simp
  unfold placeDrawingCycle PlaceDrawingCmd.undo_ PlaceDrawingCmd.redo_
  simp only [hpos, hrm]

/-- Claim C1, PlaceDrawing part. -/
theorem placeDrawing_undo_redo_restores (did : Nat) (p : Pt) (f : Flow)
    (k : Nat) (hfresh : ∀ d ∈ f.drawings, d.id ≠ did) :
    obs ((placeDrawingCycle^[k]
        (PlaceDrawingCmd.redo_ (mkPlaceDrawing did p) f)).2)
      = obs ((PlaceDrawingCmd.redo_ (mkPlaceDrawing did p) f).2) := by
  have hact : PlaceDrawingCmd.redo_ (mkPlaceDrawing did p) f
      = (⟨did, p, p⟩, f.addDrawing ⟨did, p⟩) := rfl
  rw [hact, Function.iterate_fixed (placeDrawing_cycle_fixed did p f hfresh) k]

/-- Claim C1, Select part: selection commands never touch the graph
observable. -/
theorem select_undo_redo_restores (c : SelectCmd) (f : Flow) (k : Nat) :
    obs ((selectCycle^[k] (SelectCmd.redo_ c f)).2)
      = obs ((SelectCmd.redo_ c f).2) := by
  have hact : SelectCmd.redo_ c f = (c, f) := rfl
  rw [hact, Function.iterate_fixed (rfl : selectCycle (c, f) = (c, f)) k]

/-- Closed form of `RemoveComponentsCommand.redo_` on the flow. -/
theorem removeRedo_eq (c : RemoveCmd) (f : Flow) :
    RemoveCmd.redo_ c f
      = (c, Flow.mk
          (filterRemove nodeSurv f.nodes c.nodes)
          (filterRemove connSurv (filterRemove connSurv f.conns c.broken)
            c.internal)
          (filterRemove drawSurv f.drawings c.drawings)) := by
  unfold RemoveCmd.redo_
  simp only [removeConnsList_eq, removeNodesList_eq, removeDrawingsList_eq]

/-- Closed form of `RemoveComponentsCommand.undo_` on the flow. -/
theorem removeUndo_eq (c : RemoveCmd) (f : Flow) :
    RemoveCmd.undo_ c f
      = (c, Flow.mk (f.nodes ++ c.nodes)
          (f.conns ++ c.broken ++ c.internal)
          (f.drawings ++ c.drawings)) := by
  unfold RemoveCmd.undo_
  simp only [addNodesList_eq, addDrawingsList_eq, addConnsList_eq]

/-- An undo/redo pair on an activated RemoveComponents command is the
identity, for every command over every flow. -/
theorem remove_cycle_fixed (c : RemoveCmd) (f : Flow) :
    removeCycle (RemoveCmd.redo_ c f) = RemoveCmd.redo_ c f := by
  rw [removeRedo_eq]
  unfold removeCycle
  simp only
  rw [removeUndo_eq]
  simp only
  rw [removeRedo_eq]
  have hnodes : filterRemove nodeSurv
      (filterRemove nodeSurv f.nodes c.nodes ++ c.nodes) c.nodes
      = filterRemove nodeSurv f.nodes c.nodes := by
    rw [filterRemove_append, filterRemove_idem,
      filterRemove_eq_nil nodeSurv c.nodes c.nodes
        (fun x hx => ⟨x, hx, by simp [nodeSurv]⟩)]
    simp
  have hdraws : filterRemove drawSurv
      (filterRemove drawSurv f.drawings c.drawings ++ c.drawings) c.drawings
      = filterRemove drawSurv f.drawings c.drawings := by
    rw [filterRemove_append, filterRemove_idem,
      filterRemove_eq_nil drawSurv c.drawings c.drawings
        (fun x hx => ⟨x, hx, by simp [drawSurv]⟩)]
    simp
  have hGc : ∀ x ∈ filterRemove connSurv
      (filterRemove connSurv f.conns c.broken) c.internal,
      (∀ k ∈ c.broken, connSurv x k = true) ∧
      (∀ k ∈ c.internal, connSurv x k = true) := by
    intro x hx
    exact ⟨(mem_filterRemove connSurv c.broken f.conns x
        (mem_filterRemove connSurv c.internal _ x hx).1).2,
      (mem_filterRemove connSurv c.internal _ x hx).2⟩
  have hconns : filterRemove connSurv (filterRemove connSurv
      (filterRemove connSurv (filterRemove connSurv f.conns c.broken)
          c.internal ++ c.broken ++ c.internal) c.broken) c.internal
      = filterRemove connSurv (filterRemove connSurv f.conns c.broken)
          c.internal := by
    have e1 : filterRemove connSurv
        (filterRemove connSurv (filterRemove connSurv f.conns c.broken)
            c.internal ++ c.broken ++ c.internal) c.broken
        = filterRemove connSurv (filterRemove connSurv f.conns c.broken)
            c.internal
          ++ filterRemove connSurv c.internal c.broken := by
      rw [filterRemove_append connSurv c.broken
          (filterRemove connSurv (filterRemove connSurv f.conns c.broken)
            c.internal ++ c.broken) c.internal,
        filterRemove_append connSurv c.broken
          (filterRemove connSurv (filterRemove connSurv f.conns c.broken)
            c.internal) c.broken,
        filterRemove_eq_self connSurv c.broken _ (fun x hx => (hGc x hx).1),
        filterRemove_eq_nil connSurv c.broken c.broken
          (fun x hx => ⟨x, hx, by simp [connSurv]⟩)]
      simp
    rw [e1, filterRemove_append connSurv c.internal
        (filterRemove connSurv (filterRemove connSurv f.conns c.broken)
          c.internal)
        (filterRemove connSurv c.internal c.broken),
      filterRemove_eq_self connSurv c.internal _ (fun x hx => (hGc x hx).2),
      filterRemove_eq_nil connSurv c.internal
        (filterRemove connSurv c.internal c.broken)
        (fun x hx => ⟨x, (mem_filterRemove connSurv c.broken c.internal x hx).1,
          by simp [connSurv]⟩)]
    simp
  rw [hnodes, hdraws, hconns]

/-- Claim C1, RemoveComponents part: unconditional. -/
theorem remove_undo_redo_restores (f : Flow) (items : List SceneItem)
    (silent : Bool) (k : Nat) :
    obs ((removeCycle^[k] (RemoveCmd.redo_ (mkRemove f items silent) f)).2)
      = obs ((RemoveCmd.redo_ (mkRemove f items silent) f).2) := by
  rw [Function.iterate_fixed (remove_cycle_fixed (mkRemove f items silent) f) k]

/-- Filtering out an element just appended removes exactly that copy. -/
theorem filter_ne_append_singleton (l : List Conn) (c : Conn) :
    (l ++ [c]).filter (fun x => x ≠ c) = l.filter (fun x => x ≠ c) := by
  simp [List.filter_append]

/-- Filtering out an absent element changes nothing. -/
theorem filter_ne_self_of_not_mem (l : List Conn) (c : Conn) (h : c ∉ l) :
    l.filter (fun x => x ≠ c) = l := by
  refine List.filter_eq_self.mpr ?_
  intro x hx
  simp only [ne_eq, decide_not, Bool.not_eq_eq_eq_not, Bool.not_true,
    decide_eq_false_iff_not]
  intro heq
  exact h (heq ▸ hx)

/-- Filtering out an element twice equals filtering once. -/
theorem filter_ne_idem (l : List Conn) (c : Conn) :
    (l.filter (fun x => x ≠ c)).filter (fun x => x ≠ c)
      = l.filter (fun x => x ≠ c) := by
  refine List.filter_eq_self.mpr ?_
  intro x hx
  exact (List.mem_filter.mp hx).2

/-- An undo/redo pair on an activated ConnectPorts command is the identity,
in both modes. -/
theorem connect_cycle_fixed (f : Flow) (o i : Port) (s : Bool) :
    connectCycle (ConnectCmd.redo_ (mkConnect f o i s) f)
      = ConnectCmd.redo_ (mkConnect f o i s) f := by
  by_cases h : i ∈ f.connectedInputs o
  · have hc : mkConnect f o i s = ⟨o, i, s, ⟨o, i⟩, some ⟨o, i⟩, false⟩ := by
      simp [mkConnect, h, Flow.connectionInfo]
    rw [hc]
    have hr : ConnectCmd.redo_ (⟨o, i, s, ⟨o, i⟩, some ⟨o, i⟩, false⟩ : ConnectCmd) f
        = (⟨o, i, s, ⟨o, i⟩, some ⟨o, i⟩, false⟩,
           { f with conns := f.conns.filter (fun x => x ≠ ⟨o, i⟩) }) := rfl
    rw [hr]
    unfold connectCycle ConnectCmd.undo_ ConnectCmd.redo_
    simp only [Bool.false_eq_true, if_neg, ite_false]
    show ((⟨o, i, s, ⟨o, i⟩, some ⟨o, i⟩, false⟩ : ConnectCmd),
        Flow.disconnectFromInfo _ _) = _
    unfold Flow.connectFromInfo Flow.disconnectFromInfo
    simp only
    rw [filter_ne_append_singleton, filter_ne_idem]
  · have hc : mkConnect f o i s = ⟨o, i, s, ⟨o, i⟩, none, true⟩ := by
      simp [mkConnect, h, Flow.connectionInfo]
    rw [hc]
    have hnotmem : (⟨o, i⟩ : Conn) ∉ f.conns := by
      intro hmem
      exact h (mem_connectedInputs f ⟨o, i⟩ hmem)
    have hr : ConnectCmd.redo_ (⟨o, i, s, ⟨o, i⟩, none, true⟩ : ConnectCmd) f
        = (⟨o, i, s, ⟨o, i⟩, some ⟨o, i⟩, true⟩,
           { f with conns := f.conns ++ [⟨o, i⟩] }) := rfl
    rw [hr]
    unfold connectCycle ConnectCmd.undo_ ConnectCmd.redo_
    simp only [if_pos]
    unfold Flow.connectFromInfo Flow.disconnectFromInfo
    simp only
    rw [filter_ne_append_singleton, filter_ne_self_of_not_mem f.conns _ hnotmem]

/-- Claim C1, ConnectPorts part: unconditional. -/
theorem connect_undo_redo_restores (f : Flow) (o i : Port) (s : Bool)
    (k : Nat) :
    obs ((connectCycle^[k] (ConnectCmd.redo_ (mkConnect f o i s) f)).2)
      = obs ((ConnectCmd.redo_ (mkConnect f o i s) f).2) := by
  rw [Function.iterate_fixed (connect_cycle_fixed f o i s) k]

/-- Activation of a Paste command: the first `redo_` parses the (shifted)
descriptors, creates the drawings, bulk-loads nodes and connections, and
retains all created instances. -/
theorem paste_activate_eq (data : PasteData) (off : Pt) (f : Flow) :
    PasteCmd.redo_ (mkPaste data off) f
      = (⟨modifyDataPositions data off,
          (modifyDataPositions data off).nodes.map nodeOfData,
          data.connections,
          (modifyDataPositions data off).drawings.map drawingOfData⟩,
         Flow.mk
           (f.nodes ++ (modifyDataPositions data off).nodes.map nodeOfData)
           (f.conns ++ data.connections)
           (f.drawings ++
             (modifyDataPositions data off).drawings.map drawingOfData)) := by
  unfold PasteCmd.redo_ mkPaste pasteFresh createDrawings Flow.loadComponents
  simp [modifyDataPositions]

/-- An undo/redo pair on an activated Paste command whose retained instances
are fresh with respect to the surrounding flow is the identity. -/
theorem paste_cycle_fixed (c : PasteCmd) (f : Flow)
    (hfn : ∀ m ∈ f.nodes, ∀ n ∈ c.nodes, m.id ≠ n.id)
    (hfc : ∀ x ∈ f.conns, x ∉ c.connections)
    (hfd : ∀ d ∈ f.drawings, ∀ e ∈ c.drawings, d.id ≠ e.id)
    (hd1 : c.data.nodes.map nodeOfData = c.nodes)
    (hd2 : c.data.connections = c.connections)
    (hd3 : c.data.drawings.map drawingOfData = c.drawings) :
    pasteCycle (c, Flow.mk (f.nodes ++ c.nodes) (f.conns ++ c.connections)
        (f.drawings ++ c.drawings))
      = (c, Flow.mk (f.nodes ++ c.nodes) (f.conns ++ c.connections)
        (f.drawings ++ c.drawings)) := by
  have hu : PasteCmd.undo_ c (Flow.mk (f.nodes ++ c.nodes)
      (f.conns ++ c.connections) (f.drawings ++ c.drawings)) = (c, f) := by
    unfold PasteCmd.undo_
    have hfold : c.connections.foldl Flow.removeConnection
        (Flow.mk (f.nodes ++ c.nodes) (f.conns ++ c.connections)
          (f.drawings ++ c.drawings))
        = removeConnsList (Flow.mk (f.nodes ++ c.nodes)
          (f.conns ++ c.connections) (f.drawings ++ c.drawings))
          c.connections := rfl
    rw [hfold]
    simp only [removeConnsList_eq, removeNodesList_eq, removeDrawingsList_eq]
    have hc2 : filterRemove connSurv (f.conns ++ c.connections) c.connections
        = f.conns := by
      rw [filterRemove_append,
        filterRemove_eq_self connSurv c.connections f.conns
          (fun x hx k hk => by
            simp only [connSurv, ne_eq, decide_eq_true_eq]
            intro heq
            exact hfc x hx (heq ▸ hk)),
        filterRemove_eq_nil connSurv c.connections c.connections
          (fun x hx => ⟨x, hx, by simp [connSurv]⟩)]
      simp
    have hn2 : filterRemove nodeSurv (f.nodes ++ c.nodes) c.nodes
        = f.nodes := by
      rw [filterRemove_append,
        filterRemove_eq_self nodeSurv c.nodes f.nodes
          (fun x hx k hk => by
            simp only [nodeSurv, ne_eq, decide_eq_true_eq]
            exact hfn x hx k hk),
        filterRemove_eq_nil nodeSurv c.nodes c.nodes
          (fun x hx => ⟨x, hx, by simp [nodeSurv]⟩)]
      simp
    have hdr2 : filterRemove drawSurv (f.drawings ++ c.drawings) c.drawings
        = f.drawings := by
      rw [filterRemove_append,
        filterRemove_eq_self drawSurv c.drawings f.drawings
          (fun x hx k hk => by
            simp only [drawSurv, ne_eq, decide_eq_true_eq]
            exact hfd x hx k hk),
        filterRemove_eq_nil drawSurv c.drawings c.drawings
          (fun x hx => ⟨x, hx, by simp [drawSurv]⟩)]
      simp
    rw [hc2, hn2, hdr2]
  unfold pasteCycle
  rw [hu]
  by_cases hfresh : pasteFresh c = true
  · obtain ⟨he1, he2, he3⟩ : c.nodes = [] ∧ c.connections = [] ∧ c.drawings = [] := by
      have h := hfresh
      unfold pasteFresh at h
      simpa [Bool.and_eq_true, List.isEmpty_iff, and_assoc] using h
    have hdn : c.data.nodes = [] := by
      have h := hd1
      rw [he1] at h
      exact List.map_eq_nil_iff.mp h
    have hdc : c.data.connections = [] := hd2.trans he2
    have hdd : c.data.drawings = [] := by
      have h := hd3
      rw [he3] at h
      exact List.map_eq_nil_iff.mp h
    unfold PasteCmd.redo_ createDrawings Flow.loadComponents
    rw [if_pos hfresh]
    simp only [hdn, hdc, hdd, List.map_nil, List.append_nil]
    rw [he1, he2, he3]
    simp only [List.append_nil]
    rw [← he1, ← he2, ← he3]
  · unfold PasteCmd.redo_
    rw [if_neg hfresh]
    have hfold : ∀ (g : Flow), c.connections.foldl Flow.addConnection g
        = addConnsList g c.connections := fun g => rfl
    simp only [hfold, addNodesList_eq, addConnsList_eq, addDrawingsList_eq]

/-- Node instances loaded by Paste carry the ids of the original
descriptors (position shifting does not touch identities). -/
theorem paste_node_id_mem (data : PasteData) (off : Pt) (n : Node)
    (h : n ∈ (modifyDataPositions data off).nodes.map nodeOfData) :
    ∃ nd ∈ data.nodes, n.id = nd.id := by
  obtain ⟨nd2, h2, hh⟩ := List.mem_map.mp h
  unfold modifyDataPositions at h2
  obtain ⟨nd, hnd, hhh⟩ := List.mem_map.mp h2
  refine ⟨nd, hnd, ?_⟩
  rw [← hh, ← hhh]
  rfl

/-- Drawing instances created by Paste carry the ids of the original
descriptors. -/
theorem paste_drawing_id_mem (data : PasteData) (off : Pt) (d : Drawing)
    (h : d ∈ (modifyDataPositions data off).drawings.map drawingOfData) :
    ∃ dd ∈ data.drawings, d.id = dd.id := by
  obtain ⟨dd2, h2, hh⟩ := List.mem_map.mp h
  unfold modifyDataPositions at h2
  obtain ⟨dd, hdd, hhh⟩ := List.mem_map.mp h2
  refine ⟨dd, hdd, ?_⟩
  rw [← hh, ← hhh]
  rfl

/-- Claim C1, Paste part: with the pasted identities fresh for the target
flow, any number of undo/redo pairs preserves the observable state reached
by the first activation. -/
theorem paste_undo_redo_restores (data : PasteData) (off : Pt) (f : Flow)
    (k : Nat)
    (hfn : ∀ m ∈ f.nodes, ∀ nd ∈ data.nodes, m.id ≠ nd.id)
    (hfc : ∀ x ∈ f.conns, x ∉ data.connections)
    (hfd : ∀ d ∈ f.drawings, ∀ dd ∈ data.drawings, d.id ≠ dd.id) :
    obs ((pasteCycle^[k] (PasteCmd.redo_ (mkPaste data off) f)).2)
      = obs ((PasteCmd.redo_ (mkPaste data off) f).2) := by
  rw [paste_activate_eq data off f]
  have hfix := paste_cycle_fixed
    ⟨modifyDataPositions data off,
      (modifyDataPositions data off).nodes.map nodeOfData,
      data.connections,
      (modifyDataPositions data off).drawings.map drawingOfData⟩ f
    (fun m hm n hn => by
      obtain ⟨nd, hnd, hid⟩ := paste_node_id_mem data off n hn
      rw [hid]
      exact hfn m hm nd hnd)
    (fun x hx => hfc x hx)
    (fun d hd e he => by
      obtain ⟨dd, hdd, hid⟩ := paste_drawing_id_mem data off e he
      rw [hid]
      exact hfd d hd dd hdd)
    rfl rfl rfl
  rw [Function.iterate_fixed hfix k]

/-- Claim C1, counterexample.  The claim quantifies over every constructed
command; for a Move command with `p_to = (1, 0)` over a single node at the
origin, one `undo_(); redo_()` pair after activation translates the node by
`p_to` (each `undo_` translates by `p_from` against a fresh origin group
while `redo_` compensates with `p_to - last`), so the observable state
differs from the post-activation state. -/
theorem inverse_law_counterexample :
    obs ((moveCycle (MoveCmd.redo_ (mkMove [MoveItem.node 1] Pt.zero ⟨1, 0⟩)
        (Flow.mk [⟨1, 0, 0, ⟨0, 0⟩⟩] [] []))).2)
      ≠ obs ((MoveCmd.redo_ (mkMove [MoveItem.node 1] Pt.zero ⟨1, 0⟩)
        (Flow.mk [⟨1, 0, 0, ⟨0, 0⟩⟩] [] []))).2 := by
  decide

/-- Claim C1, amended.  For every concrete command type, after constructing
and activating the command, calling `undo_()` followed by `redo_()` any
number of times yields a graph with the same node identities, connection
endpoint pairs, and item positions as immediately after the initial
activation — with the Move command restricted to a target group position
`p_to = (0,0)` (the form the view layer constructs), and with the standard
freshness side conditions that the identities created by PlaceNode,
PlaceDrawing and Paste do not already occur in the flow. -/
theorem inverse_law_amended :
    (∀ (I : List MoveItem) (pf : Pt) (f : Flow) (k : Nat),
      obs ((moveCycle^[k] (MoveCmd.redo_ (mkMove I pf Pt.zero) f)).2)
        = obs ((MoveCmd.redo_ (mkMove I pf Pt.zero) f).2)) ∧
    (∀ (nc : NodeClass) (pos : Pt) (f : Flow) (k : Nat),
      nc.fails = false → (∀ m ∈ f.nodes, m.id ≠ nc.newId) →
      obs ((placeNodeCycle^[k] (placeNodeActivate nc pos f)).2)
        = obs (placeNodeActivate nc pos f).2) ∧
    (∀ (did : Nat) (p : Pt) (f : Flow) (k : Nat),
      (∀ d ∈ f.drawings, d.id ≠ did) →
      obs ((placeDrawingCycle^[k]
          (PlaceDrawingCmd.redo_ (mkPlaceDrawing did p) f)).2)
        = obs ((PlaceDrawingCmd.redo_ (mkPlaceDrawing did p) f).2)) ∧
    (∀ (c : SelectCmd) (f : Flow) (k : Nat),
      obs ((selectCycle^[k] (SelectCmd.redo_ c f)).2)
        = obs ((SelectCmd.redo_ c f).2)) ∧
    (∀ (f : Flow) (items : List SceneItem) (silent : Bool) (k : Nat),
      obs ((removeCycle^[k] (RemoveCmd.redo_ (mkRemove f items silent) f)).2)
        = obs ((RemoveCmd.redo_ (mkRemove f items silent) f).2)) ∧
    (∀ (f : Flow) (o i : Port) (s : Bool) (k : Nat),
      obs ((connectCycle^[k] (ConnectCmd.redo_ (mkConnect f o i s) f)).2)
        = obs ((ConnectCmd.redo_ (mkConnect f o i s) f).2)) ∧
    (∀ (data : PasteData) (off : Pt) (f : Flow) (k : Nat),
      (∀ m ∈ f.nodes, ∀ nd ∈ data.nodes, m.id ≠ nd.id) →
      (∀ x ∈ f.conns, x ∉ data.connections) →
      (∀ d ∈ f.drawings, ∀ dd ∈ data.drawings, d.id ≠ dd.id) →
      obs ((pasteCycle^[k] (PasteCmd.redo_ (mkPaste data off) f)).2)
        = obs ((PasteCmd.redo_ (mkPaste data off) f).2)) :=
  ⟨move_undo_redo_restores,
   fun nc pos f k h1 h2 => placeNode_undo_redo_restores nc pos f k h1 h2,
   fun did p f k h => placeDrawing_undo_redo_restores did p f k h,
   select_undo_redo_restores,
   remove_undo_redo_restores,
   connect_undo_redo_restores,
   fun data off f k h1 h2 h3 => paste_undo_redo_restores data off f k h1 h2 h3⟩

/-- Claim C1, witness for the hypothesised parts of the amended theorem:
concrete PlaceNode, PlaceDrawing and Paste activations whose freshness side
conditions hold by computation. -/
theorem inverse_law_witness :
    ((⟨4, 1, 1, false⟩ : NodeClass).fails = false ∧
     (∀ m ∈ (Flow.mk [] [] []).nodes, m.id ≠ (4 : Nat)) ∧
     obs ((placeNodeCycle^[2]
         (placeNodeActivate ⟨4, 1, 1, false⟩ ⟨2, 3⟩ (Flow.mk [] [] []))).2)
       = obs (placeNodeActivate ⟨4, 1, 1, false⟩ ⟨2, 3⟩ (Flow.mk [] [] [])).2) ∧
    ((∀ d ∈ (Flow.mk [] [] [⟨9, ⟨0, 0⟩⟩]).drawings, d.id ≠ (5 : Nat)) ∧
     obs ((placeDrawingCycle^[2] (PlaceDrawingCmd.redo_ (mkPlaceDrawing 5 ⟨1, 1⟩)
         (Flow.mk [] [] [⟨9, ⟨0, 0⟩⟩]))).2)
       = obs ((PlaceDrawingCmd.redo_ (mkPlaceDrawing 5 ⟨1, 1⟩)
         (Flow.mk [] [] [⟨9, ⟨0, 0⟩⟩])).2)) ∧
    ((∀ m ∈ (Flow.mk [] [] []).nodes,
        ∀ nd ∈ (PasteData.mk [⟨1, 1, 1, 0, 0⟩] [] [⟨2, 3, 4⟩]).nodes,
        m.id ≠ nd.id) ∧
     (∀ x ∈ (Flow.mk [] [] []).conns,
        x ∉ (PasteData.mk [⟨1, 1, 1, 0, 0⟩] [] [⟨2, 3, 4⟩]).connections) ∧
     (∀ d ∈ (Flow.mk [] [] []).drawings,
        ∀ dd ∈ (PasteData.mk [⟨1, 1, 1, 0, 0⟩] [] [⟨2, 3, 4⟩]).drawings,
        d.id ≠ dd.id) ∧
     obs ((pasteCycle^[1] (PasteCmd.redo_
         (mkPaste (PasteData.mk [⟨1, 1, 1, 0, 0⟩] [] [⟨2, 3, 4⟩]) ⟨1, 1⟩)
         (Flow.mk [] [] []))).2)
       = obs ((PasteCmd.redo_
         (mkPaste (PasteData.mk [⟨1, 1, 1, 0, 0⟩] [] [⟨2, 3, 4⟩]) ⟨1, 1⟩)
         (Flow.mk [] [] [])).2)) := by
  refine ⟨⟨by decide, by decide, ?_⟩, ⟨by decide, ?_⟩,
    ⟨by decide, by decide, by decide, ?_⟩⟩
  · exact inverse_law_amended.2.1 ⟨4, 1, 1, false⟩ ⟨2, 3⟩ (Flow.mk [] [] []) 2
      (by decide) (by decide)
  · exact inverse_law_amended.2.2.1 5 ⟨1, 1⟩ (Flow.mk [] [] [⟨9, ⟨0, 0⟩⟩]) 2
      (by decide)
  · exact inverse_law_amended.2.2.2.2.2.2
      (PasteData.mk [⟨1, 1, 1, 0, 0⟩] [] [⟨2, 3, 4⟩]) ⟨1, 1⟩
      (Flow.mk [] [] []) 1 (by decide) (by decide) (by decide)

/-- Claim C6, counterexample.  The claim states that only the first `redo_`
invocation parses the descriptor data.  For a Paste command over empty
clipboard data, the retained instance lists are still empty after the first
`redo_`, so the branch condition of `redo_` (all three lists empty) still
selects the descriptor-parsing path on the second invocation: the command
re-parses on every redo instead of caching exactly once. -/
theorem paste_cache_counterexample :
    pasteFresh ((PasteCmd.redo_ (mkPaste (PasteData.mk [] [] []) Pt.zero)
      (Flow.mk [] [] [])).1) = true := by
  decide

/-- Claim C6, amended.  Provided the clipboard data holds at least one node,
connection, or drawing descriptor (and the created identities are fresh for
the flow), only the first `redo_` parses the descriptors — it retains the
loaded nodes, the connection list, and the created drawings — every later
state fails the parsing-branch condition, and each subsequent
`undo_(); redo_()` pair maps the activated command-and-flow pair to itself:
the same retained instances are re-added and no duplicates are created. -/
theorem paste_cache_amended (data : PasteData) (off : Pt) (f : Flow)
    (hne : data.nodes ≠ [] ∨ data.connections ≠ [] ∨ data.drawings ≠ [])
    (hfn : ∀ m ∈ f.nodes, ∀ nd ∈ data.nodes, m.id ≠ nd.id)
    (hfc : ∀ x ∈ f.conns, x ∉ data.connections)
    (hfd : ∀ d ∈ f.drawings, ∀ dd ∈ data.drawings, d.id ≠ dd.id) :
    pasteFresh (mkPaste data off) = true ∧
    (PasteCmd.redo_ (mkPaste data off) f).1.nodes
      = (modifyDataPositions data off).nodes.map nodeOfData ∧
    (PasteCmd.redo_ (mkPaste data off) f).1.connections = data.connections ∧
    (PasteCmd.redo_ (mkPaste data off) f).1.drawings
      = (modifyDataPositions data off).drawings.map drawingOfData ∧
    pasteFresh (PasteCmd.redo_ (mkPaste data off) f).1 = false ∧
    (∀ k : Nat, pasteCycle^[k] (PasteCmd.redo_ (mkPaste data off) f)
      = PasteCmd.redo_ (mkPaste data off) f) := by
  have hact := paste_activate_eq data off f
  have hfix : pasteCycle (PasteCmd.redo_ (mkPaste data off) f)
      = PasteCmd.redo_ (mkPaste data off) f := by
    rw [hact]
    exact paste_cycle_fixed
      ⟨modifyDataPositions data off,
        (modifyDataPositions data off).nodes.map nodeOfData,
        data.connections,
        (modifyDataPositions data off).drawings.map drawingOfData⟩ f
      (fun m hm n hn => by
        obtain ⟨nd, hnd, hid⟩ := paste_node_id_mem data off n hn
        rw [hid]
        exact hfn m hm nd hnd)
      (fun x hx => hfc x hx)
      (fun d hd e he => by
        obtain ⟨dd, hdd, hid⟩ := paste_drawing_id_mem data off e he
        rw [hid]
        exact hfd d hd dd hdd)
      rfl rfl rfl
  refine ⟨rfl, by rw [hact], by rw [hact], by rw [hact], ?_,
    fun k => Function.iterate_fixed hfix k⟩
  rw [hact]
  rcases hne with h | h | h
  · cases hh : data.nodes with
    | nil => exact absurd hh h
    | cons a tl => simp [pasteFresh, modifyDataPositions, hh]
  · cases hh : data.connections with
    | nil => exact absurd hh h
    | cons a tl => simp [pasteFresh, hh]
  · cases hh : data.drawings with
    | nil => exact absurd hh h
    | cons a tl => simp [pasteFresh, modifyDataPositions, hh]

/-- Claim C6, witness: one node and one drawing descriptor pasted into an
empty flow; after the first redo the parsing-branch condition is false and
one undo/redo pair is the identity on the command-and-flow pair. -/
theorem paste_cache_witness :
    (((PasteData.mk [⟨1, 1, 1, 0, 0⟩] [] [⟨2, 3, 4⟩]).nodes ≠ [] ∨
      (PasteData.mk [⟨1, 1, 1, 0, 0⟩] [] [⟨2, 3, 4⟩]).connections ≠ [] ∨
      (PasteData.mk [⟨1, 1, 1, 0, 0⟩] [] [⟨2, 3, 4⟩]).drawings ≠ []) ∧
     (∀ m ∈ (Flow.mk [] [] []).nodes,
        ∀ nd ∈ (PasteData.mk [⟨1, 1, 1, 0, 0⟩] [] [⟨2, 3, 4⟩]).nodes,
        m.id ≠ nd.id) ∧
     (∀ x ∈ (Flow.mk [] [] []).conns,
        x ∉ (PasteData.mk [⟨1, 1, 1, 0, 0⟩] [] [⟨2, 3, 4⟩]).connections) ∧
     (∀ d ∈ (Flow.mk [] [] []).drawings,
        ∀ dd ∈ (PasteData.mk [⟨1, 1, 1, 0, 0⟩] [] [⟨2, 3, 4⟩]).drawings,
        d.id ≠ dd.id)) ∧
    (pasteFresh ((PasteCmd.redo_
        (mkPaste (PasteData.mk [⟨1, 1, 1, 0, 0⟩] [] [⟨2, 3, 4⟩]) ⟨5, 6⟩)
        (Flow.mk [] [] [])).1) = false ∧
     pasteCycle^[1] (PasteCmd.redo_
        (mkPaste (PasteData.mk [⟨1, 1, 1, 0, 0⟩] [] [⟨2, 3, 4⟩]) ⟨5, 6⟩)
        (Flow.mk [] [] []))
       = PasteCmd.redo_
        (mkPaste (PasteData.mk [⟨1, 1, 1, 0, 0⟩] [] [⟨2, 3, 4⟩]) ⟨5, 6⟩)
        (Flow.mk [] [] [])) := by
  refine ⟨⟨by decide, by decide, by decide, by decide⟩, ?_, ?_⟩
  · exact (paste_cache_amended (PasteData.mk [⟨1, 1, 1, 0, 0⟩] [] [⟨2, 3, 4⟩])
      ⟨5, 6⟩ (Flow.mk [] [] []) (by decide) (by decide) (by decide)
      (by decide)).2.2.2.2.1
  · exact (paste_cache_amended (PasteData.mk [⟨1, 1, 1, 0, 0⟩] [] [⟨2, 3, 4⟩])
      ⟨5, 6⟩ (Flow.mk [] [] []) (by decide) (by decide) (by decide)
      (by decide)).2.2.2.2.2 1

end CognixEditor
